import Mathlib

/-!
Verification development for the wnba-playing-time lineup-reconstruction core
(src/utils.py).  The three source functions are embedded shallowly:

* play_clock_to_seconds (utils.py lines 10-37): clock normalization.  The
  clock string of the form MM:SS is modelled structurally as the pair of its
  minutes and seconds components; fractional seconds are outside the model.
* process_pbp_data (utils.py lines 40-141): the lineup/time-bank state
  machine.  The pandas data frame of events becomes a list of Event records,
  the time_on_court dict becomes a function from player ids to records
  guarded by roster membership (a missing key raises, as the dict does), and
  every Python-level failure (KeyError on an unknown id, TypeError on a None
  subtraction at a period end, the column-length mismatch raised when the
  interval table is materialized) is an error value of the PbpError type.
* assign_players_on_court (utils.py lines 143-200): the assignment pass.
  The assert statement becomes an AssignError value carrying exactly the
  data interpolated into the assert message: the team id and the positional
  index of the row in the sorted event table.

Times are integers (seconds); player and team ids are integers; nullable
id columns are Option values, mirroring NaN cells.
-/

/-- Clock normalizer (utils.py lines 10-37).  The string split and the
numeric conversions of the source are modelled by taking the minutes and
seconds components directly.  Returns the pair of game_time_remaining and
max_period_time, in seconds. -/
def play_clock_to_seconds (minutes seconds : ℕ) (period : ℕ) : ℤ × ℤ :=
  if period ≤ 4 then
    (10 * (4 - (period : ℤ)) * 60 + ((minutes : ℤ) * 60 + (seconds : ℤ)),
     10 * (5 - (period : ℤ)) * 60)
  else
    (((minutes : ℤ) * 60 + (seconds : ℤ)), 5 * 60)

/-- One play-by-play record with the columns the core reads.  The clock
string is carried as its minutes and seconds components; the nullable
player and team id columns are Option values. -/
structure Event where
  game_id : ℤ
  eventnum : ℕ
  period : ℕ
  clock_min : ℕ
  clock_sec : ℕ
  eventmsgtype : ℕ
  player1_id : Option ℤ := none
  player2_id : Option ℤ := none
  player3_id : Option ℤ := none
  player1_team_id : Option ℤ := none
deriving DecidableEq, Repr

/-- An event together with its derived game_time_remaining column
(utils.py line 62). -/
structure GEvent where
  ev : Event
  gtr : ℤ
deriving DecidableEq, Repr

/-- Attaching the game_time_remaining column (utils.py line 62). -/
def withGtr (pbp : List Event) : List GEvent :=
  pbp.map fun e => ⟨e, (play_clock_to_seconds e.clock_min e.clock_sec e.period).1⟩

/-- The sort key of utils.py line 63: game_time_remaining descending,
then period ascending, then eventnum ascending. -/
def keyLE (a b : GEvent) : Prop :=
  b.gtr < a.gtr ∨
    (a.gtr = b.gtr ∧
      (a.ev.period < b.ev.period ∨
        (a.ev.period = b.ev.period ∧ a.ev.eventnum ≤ b.ev.eventnum)))

instance : DecidableRel keyLE := fun a b => by
  unfold keyLE; infer_instance

instance : IsTotal GEvent keyLE := by
  constructor
  intro a b
  unfold keyLE
  omega

instance : IsTrans GEvent keyLE := by
  constructor
  intro a b c hab hbc
  unfold keyLE at *
  omega

/-- The sorting step of utils.py line 63.  sort_values is modelled as a
sort by the total key keyLE; with pairwise distinct event numbers the key
admits exactly one sorted arrangement, so the choice of algorithm is
immaterial. -/
def sortEvents (l : List GEvent) : List GEvent :=
  List.insertionSort keyLE l

/-- Per-player time-bank record (utils.py line 68): the accumulated
playing_time counter, the nullable open check-in, the check-in and
check-out sequences, and the period-history sequence. -/
structure PRec where
  playing_time : ℤ := 0
  time_in : Option ℤ := none
  time_in_list : List ℤ := []
  time_out_list : List ℤ := []
  period_list : List ℕ := []
deriving Repr

/-- Mutable state of the processing loop (utils.py lines 57-68): the two
on-court lists, the internal period counter, and the time bank keyed by
player id. -/
structure PState where
  home_on_court : List ℤ := []
  visitor_on_court : List ℤ := []
  period : ℕ := 1
  bank : ℤ → PRec := fun _ => {}

/-- Errors process_pbp_data can raise: the KeyError of indexing the
time_on_court dict with an id that is not a roster key (a None id is also
not a key), the TypeError of subtracting from a None check-in at a period
end, and the length mismatch raised when the per-player interval columns
are materialized with check-in and check-out lists of unequal length. -/
inductive PbpError where
  | keyError : Option ℤ → PbpError
  | typeError : PbpError
  | lengthMismatch : ℤ → PbpError
deriving DecidableEq, Repr

/-- Initial machine state (utils.py lines 57-68): empty courts, period 1,
and an empty record for every roster player. -/
def initState : PState := {}

/-- Remove an id from an on-court list if present (utils.py lines 75-76):
Python list.remove drops the first occurrence.  A None id is never a
member, so the removal is a no-op for it. -/
def removeIfPresent (court : List ℤ) : Option ℤ → List ℤ
  | none => court
  | some v => court.erase v

/-- Append an id to an on-court list if absent (utils.py lines 77-78).
A None id would be appended by the source, but every substitution event
with a None id dies with a KeyError in the bank update of the very same
iteration before the state is ever read again, so the no-op model is
observationally equal. -/
def appendIfAbsent (court : List ℤ) : Option ℤ → List ℤ
  | none => court
  | some v => if v ∈ court then court else court ++ [v]

/-- Substitution handling (utils.py lines 73-100), with the event time and
the period-start time passed in as computed on line 72.  Order follows the
source: on-court updates first, then the bank update for player1, then the
bank update for player2. -/
def subStep (hr vr : List ℤ) (home_id : ℤ) (st : PState)
    (p1 p2 p1team : Option ℤ) (t maxp : ℤ) : Except PbpError PState :=
  let homeCourt :=
    if p1team = some home_id then appendIfAbsent (removeIfPresent st.home_on_court p1) p2
    else st.home_on_court
  let visitorCourt :=
    if p1team = some home_id then st.visitor_on_court
    else appendIfAbsent (removeIfPresent st.visitor_on_court p1) p2
  match p1 with
  | none => .error (.keyError none)
  | some v1 =>
    if v1 ∈ hr ∨ v1 ∈ vr then
      let r1 := st.bank v1
      let r1a :=
        match r1.time_in with
        | none =>
          { r1 with
            playing_time := r1.playing_time + (maxp - t)
            time_in_list := r1.time_in_list ++ [maxp] }
        | some w =>
          { r1 with playing_time := r1.playing_time + (w - t) }
      let r1b := { r1a with
        time_in := none
        time_out_list := r1a.time_out_list ++ [t]
        period_list := r1a.period_list ++ [st.period] }
      let bank1 : ℤ → PRec := fun q => if q = v1 then r1b else st.bank q
      match p2 with
      | none => .error (.keyError none)
      | some v2 =>
        if v2 ∈ hr ∨ v2 ∈ vr then
          let r2 := bank1 v2
          let r2a := { r2 with time_in := some t, time_in_list := r2.time_in_list ++ [t] }
          .ok { home_on_court := homeCourt, visitor_on_court := visitorCourt,
                period := st.period, bank := fun q => if q = v2 then r2a else bank1 q }
        else .error (.keyError (some v2))
    else .error (.keyError (some v1))

/-- Close the open interval of one on-court player at a period end
(utils.py lines 103-107).  Indexing the bank with a non-key id raises
KeyError; a None open check-in raises TypeError in the subtraction. -/
def closeOne (hr vr : List ℤ) (per : ℕ) (t : ℤ) (bank : ℤ → PRec) (pid : ℤ) :
    Except PbpError (ℤ → PRec) :=
  if pid ∈ hr ∨ pid ∈ vr then
    let r := bank pid
    match r.time_in with
    | none => .error .typeError
    | some w =>
      let r' := { r with
        playing_time := r.playing_time + (w - t)
        time_in := none
        time_out_list := r.time_out_list ++ [t]
        period_list := r.period_list ++ [per] }
      .ok fun q => if q = pid then r' else bank q
  else .error (.keyError (some pid))

/-- Fold of closeOne over a list of on-court players. -/
def closeAll (hr vr : List ℤ) (per : ℕ) (t : ℤ) (bank : ℤ → PRec) :
    List ℤ → Except PbpError (ℤ → PRec)
  | [] => .ok bank
  | pid :: rest =>
    match closeOne hr vr per t bank pid with
    | .error e => .error e
    | .ok bank' => closeAll hr vr per t bank' rest

/-- Period-end handling (utils.py lines 101-111): close every on-court
player of both teams, advance the period counter, clear both courts. -/
def periodEndStep (hr vr : List ℤ) (st : PState) (t : ℤ) : Except PbpError PState :=
  match closeAll hr vr st.period t st.bank (st.home_on_court ++ st.visitor_on_court) with
  | .error e => .error e
  | .ok bank' => .ok { st with
    bank := bank'
    period := st.period + 1
    home_on_court := []
    visitor_on_court := [] }

/-- Implicit-starter discovery for one named participant of a generic play
(utils.py lines 113-123): a None id is skipped; a home-roster id not on the
home court is added there with a check-in backdated to the period start;
otherwise a visitor-roster id not on the visitor court is added there the
same way; any other id is skipped silently. -/
def addParticipant (hr vr : List ℤ) (maxp : ℤ) (st : PState) : Option ℤ → PState
  | none => st
  | some v =>
    if v ∈ hr ∧ v ∉ st.home_on_court then
      { st with
        home_on_court := st.home_on_court ++ [v]
        bank := fun q => if q = v then
          { st.bank v with
            time_in := some maxp
            time_in_list := (st.bank v).time_in_list ++ [maxp] }
          else st.bank q }
    else if v ∈ vr ∧ v ∉ st.visitor_on_court then
      { st with
        visitor_on_court := st.visitor_on_court ++ [v]
        bank := fun q => if q = v then
          { st.bank v with
            time_in := some maxp
            time_in_list := (st.bank v).time_in_list ++ [maxp] }
          else st.bank q }
    else st

/-- One iteration of the processing loop (utils.py lines 70-123).  The
event time and period-start time are recomputed from the row exactly as on
line 72. -/
def processEvent (hr vr : List ℤ) (home_id : ℤ) (st : PState) (e : GEvent) :
    Except PbpError PState :=
  let tm := play_clock_to_seconds e.ev.clock_min e.ev.clock_sec e.ev.period
  if e.ev.eventmsgtype = 8 then
    subStep hr vr home_id st e.ev.player1_id e.ev.player2_id e.ev.player1_team_id tm.1 tm.2
  else if e.ev.eventmsgtype = 13 then
    periodEndStep hr vr st tm.1
  else if e.ev.eventmsgtype ≤ 5 then
    .ok (addParticipant hr vr tm.2
          (addParticipant hr vr tm.2
            (addParticipant hr vr tm.2 st e.ev.player1_id) e.ev.player2_id) e.ev.player3_id)
  else
    .ok st

/-- The processing loop over the sorted event list. -/
def runEvents (hr vr : List ℤ) (home_id : ℤ) (st : PState) :
    List GEvent → Except PbpError PState
  | [] => .ok st
  | e :: rest =>
    match processEvent hr vr home_id st e with
    | .error err => .error err
    | .ok st' => runEvents hr vr home_id st' rest

/-- One row of the interval table sub_df (utils.py lines 131-138). -/
structure SubRow where
  player_id : ℤ
  team_id : ℤ
  time_in : ℤ
  time_out : ℤ
deriving DecidableEq, Repr

/-- Helper of dedupFirst carrying the set of keys already emitted. -/
def dedupFirstGo (seen : List ℤ) : List ℤ → List ℤ
  | [] => []
  | x :: xs => if x ∈ seen then dedupFirstGo seen xs else x :: dedupFirstGo (x :: seen) xs

/-- Iteration order of the time_on_court dict: the roster concatenation
with later duplicates dropped, since reassigning an existing dict key
keeps its original position. -/
def dedupFirst (l : List ℤ) : List ℤ :=
  dedupFirstGo [] l

/-- The interval rows of one player (utils.py lines 126-138): the player
and team columns are replicated to the length of the check-in list, so a
check-out list of a different length raises the pandas all-arrays-must-be-
of-the-same-length error, modelled as lengthMismatch. -/
def playerRows (hr : List ℤ) (home_id visitor_id : ℤ) (bank : ℤ → PRec) (p : ℤ) :
    Except PbpError (List SubRow) :=
  let r := bank p
  let team := if p ∈ hr then home_id else visitor_id
  if r.time_in_list.length = r.time_out_list.length then
    .ok ((r.time_in_list.zip r.time_out_list).map fun q => ⟨p, team, q.1, q.2⟩)
  else
    .error (.lengthMismatch p)

/-- Fold of playerRows over the dict iteration order, concatenating the
per-player blocks (the pd.concat of utils.py line 139). -/
def buildSubDf (hr : List ℤ) (home_id visitor_id : ℤ) (bank : ℤ → PRec) :
    List ℤ → Except PbpError (List SubRow)
  | [] => .ok []
  | p :: ps =>
    match playerRows hr home_id visitor_id bank p with
    | .error e => .error e
    | .ok rows =>
      match buildSubDf hr home_id visitor_id bank ps with
      | .error e => .error e
      | .ok rest => .ok (rows ++ rest)

/-- process_pbp_data (utils.py lines 40-141): attach game_time_remaining,
sort, run the state machine, then materialize the interval table.  Returns
the interval table together with the sorted event table. -/
def process_pbp_data (pbp : List Event) (hr vr : List ℤ) (home_id visitor_id : ℤ) :
    Except PbpError (List SubRow × List GEvent) :=
  let sorted := sortEvents (withGtr pbp)
  match runEvents hr vr home_id initState sorted with
  | .error e => .error e
  | .ok stF =>
    match buildSubDf hr home_id visitor_id stF.bank (dedupFirst (hr ++ vr)) with
    | .error e => .error e
    | .ok subDf => .ok (subDf, sorted)

/-- Interval selection of the assignment engine for one team at one event
(utils.py lines 160-179), applied to the team-filtered interval table. -/
def selectOnCourt (teamSub : List SubRow) (msgtype : ℕ) (t : ℤ) : List ℤ :=
  if msgtype = 13 then
    (teamSub.filter fun r => decide (r.time_out = t)).map (·.player_id)
  else if msgtype = 8 then
    (teamSub.filter fun r => decide (r.time_in ≥ t ∧ r.time_out < t)).map (·.player_id)
  else
    let oc := teamSub.filter fun r => decide (r.time_in ≥ t ∧ r.time_out ≤ t)
    if oc.length > 5 then
      (teamSub.filter fun r => decide (r.time_in > t ∧ r.time_out ≤ t)).map (·.player_id)
    else
      oc.map (·.player_id)

/-- One row of the lineup table (utils.py lines 182-196): the merge of the
home and visitor halves on the shared game id and event number keys.  The
five player columns of each half are carried as the selected list, whose
length the assert has pinned to exactly 5. -/
structure LineupRow where
  game_id : ℤ
  eventnum : ℕ
  home_players : List ℤ
  visitor_players : List ℤ
deriving DecidableEq, Repr

/-- The failed assert of utils.py line 181, carrying what its message
interpolates: the team id and the positional index of the row in the
sorted event table. -/
structure AssignError where
  team_id : ℤ
  index : ℕ
deriving DecidableEq, Repr

/-- The selection count for one team at one event row. -/
def teamCount (subDf : List SubRow) (team : ℤ) (e : GEvent) : ℕ :=
  (selectOnCourt (subDf.filter fun r => decide (r.team_id = team)) e.ev.eventmsgtype e.gtr).length

/-- The loop of assign_players_on_court (utils.py lines 158-198), carrying
the positional index of the current row. -/
def assignGo (subDf : List SubRow) (home_id visitor_id : ℤ) (idx : ℕ) :
    List GEvent → Except AssignError (List LineupRow)
  | [] => .ok []
  | e :: rest =>
    let hSel := selectOnCourt (subDf.filter fun r => decide (r.team_id = home_id))
      e.ev.eventmsgtype e.gtr
    if hSel.length = 5 then
      let vSel := selectOnCourt (subDf.filter fun r => decide (r.team_id = visitor_id))
        e.ev.eventmsgtype e.gtr
      if vSel.length = 5 then
        match assignGo subDf home_id visitor_id (idx + 1) rest with
        | .error err => .error err
        | .ok rows => .ok (⟨e.ev.game_id, e.ev.eventnum, hSel, vSel⟩ :: rows)
      else
        .error ⟨visitor_id, idx⟩
    else
      .error ⟨home_id, idx⟩

/-- assign_players_on_court (utils.py lines 143-200). -/
def assign_players_on_court (subDf : List SubRow) (pbp : List GEvent)
    (home_id visitor_id : ℤ) : Except AssignError (List LineupRow) :=
  assignGo subDf home_id visitor_id 0 pbp

/-- Errors of the two-stage pipeline. -/
inductive PipeError where
  | pbp : PbpError → PipeError
  | assign : AssignError → PipeError
deriving DecidableEq, Repr

/-- Modelled from the spec: the composition of the two passes is absent
from src (main.py stops after roster extraction), so the data flow of the
spec is followed: raw records to the state machine to the interval set to
the assignment engine to the per-event lineup table. -/
def pipeline (pbp : List Event) (hr vr : List ℤ) (home_id visitor_id : ℤ) :
    Except PipeError (List LineupRow) :=
  match process_pbp_data pbp hr vr home_id visitor_id with
  | .error e => .error (.pbp e)
  | .ok (subDf, sorted) =>
    match assign_players_on_court subDf sorted home_id visitor_id with
    | .error e => .error (.assign e)
    | .ok table => .ok table

/-- Home roster of the first concrete game: players 1,2,3,4 establish the
lineup through generic plays, player 6 enters through the substitution. -/
def homeRosterA : List ℤ := [1, 2, 3, 4, 6]

/-- Visitor roster of the first concrete game. -/
def visitorRosterA : List ℤ := [11, 12, 13, 14, 15]

/-- A six-event period-1 game in which player 1 is substituted out with
five seconds left and then named by a generic play at the buzzer, so the
implicit-starter inference backdates a second check-in for player 1 to the
period start. -/
def gameA : List Event :=
  [ { game_id := 7, eventnum := 1, period := 1, clock_min := 10, clock_sec := 0,
      eventmsgtype := 1, player1_id := some 1, player2_id := some 2, player3_id := some 3 },
    { game_id := 7, eventnum := 2, period := 1, clock_min := 10, clock_sec := 0,
      eventmsgtype := 1, player1_id := some 4, player2_id := some 11, player3_id := some 12 },
    { game_id := 7, eventnum := 3, period := 1, clock_min := 10, clock_sec := 0,
      eventmsgtype := 1, player1_id := some 13, player2_id := some 14, player3_id := some 15 },
    { game_id := 7, eventnum := 4, period := 1, clock_min := 0, clock_sec := 5,
      eventmsgtype := 8, player1_id := some 1, player2_id := some 6,
      player1_team_id := some 100 },
    { game_id := 7, eventnum := 5, period := 1, clock_min := 0, clock_sec := 0,
      eventmsgtype := 1, player1_id := some 1 },
    { game_id := 7, eventnum := 6, period := 1, clock_min := 0, clock_sec := 0,
      eventmsgtype := 13 } ]

/-- Home roster of the second concrete game. -/
def homeRosterB : List ℤ := [1, 2, 3, 4, 5]

/-- Visitor roster of the second concrete game. -/
def visitorRosterB : List ℤ := [11, 12, 13, 14, 15]

/-- A six-event period-1 game whose fifth event names participant 999,
an id on neither roster. -/
def gameB : List Event :=
  [ { game_id := 9, eventnum := 1, period := 1, clock_min := 10, clock_sec := 0,
      eventmsgtype := 1, player1_id := some 1, player2_id := some 2, player3_id := some 3 },
    { game_id := 9, eventnum := 2, period := 1, clock_min := 10, clock_sec := 0,
      eventmsgtype := 1, player1_id := some 4, player2_id := some 5, player3_id := some 11 },
    { game_id := 9, eventnum := 3, period := 1, clock_min := 10, clock_sec := 0,
      eventmsgtype := 1, player1_id := some 12, player2_id := some 13, player3_id := some 14 },
    { game_id := 9, eventnum := 4, period := 1, clock_min := 10, clock_sec := 0,
      eventmsgtype := 1, player1_id := some 15 },
    { game_id := 9, eventnum := 5, period := 1, clock_min := 3, clock_sec := 20,
      eventmsgtype := 1, player1_id := some 999 },
    { game_id := 9, eventnum := 6, period := 1, clock_min := 0, clock_sec := 0,
      eventmsgtype := 13 } ]

/-- The event and period-start times recomputed from a row, as on
utils.py line 72. -/
def evTimes (e : GEvent) : ℤ × ℤ :=
  play_clock_to_seconds e.ev.clock_min e.ev.clock_sec e.ev.period

/-- C4: for a clock of the form minutes:seconds and period p, the clock
normalizer returns game_time_remaining = (4 - p) * 600 + (60 * minutes +
seconds) and max_period_time = (5 - p) * 600 when p is at most 4, and
game_time_remaining = 60 * minutes + seconds with max_period_time = 300
when p is at least 5; in particular 5:30 in period 2 yields (1530, 1800)
and 0:00 in period 6 yields (0, 300). -/
theorem claim_C4 (m s p : ℕ) :
    (p ≤ 4 → play_clock_to_seconds m s p =
      ((4 - (p : ℤ)) * 600 + (60 * (m : ℤ) + (s : ℤ)), (5 - (p : ℤ)) * 600)) ∧
    (5 ≤ p → play_clock_to_seconds m s p = (60 * (m : ℤ) + (s : ℤ), 300)) ∧
    play_clock_to_seconds 5 30 2 = (1530, 1800) ∧
    play_clock_to_seconds 0 0 6 = (0, 300) := by
  refine ⟨fun hp => ?_, fun hp => ?_, by decide, by decide⟩
  · simp only [play_clock_to_seconds, if_pos hp, Prod.mk.injEq]
    constructor <;> ring
  · simp only [play_clock_to_seconds, if_neg (by omega : ¬ p ≤ 4), Prod.mk.injEq]
    constructor <;> ring

/-- Witness for C4 at the two concrete scenarios. -/
theorem claim_C4_witness :
    play_clock_to_seconds 5 30 2 =
      ((4 - (2 : ℤ)) * 600 + (60 * (5 : ℤ) + 30), (5 - (2 : ℤ)) * 600) ∧
    play_clock_to_seconds 0 0 6 = (60 * (0 : ℤ) + 0, 300) :=
  ⟨(claim_C4 5 30 2).1 (by norm_num), (claim_C4 0 0 6).2.1 (by norm_num)⟩

/-- C3: the assignment engine selects intervals by event category: for
period-end events exactly those with time_out = t; for substitution events
exactly those with time_in at least t and time_out strictly below t; for
all other events those with time_in at least t and time_out at most t,
replaced by the strict filter time_in above t and time_out at most t when
the closed filter yields more than 5 matches. -/
theorem claim_C3 (teamSub : List SubRow) (msgtype : ℕ) (t : ℤ) :
    (msgtype = 13 → selectOnCourt teamSub msgtype t =
      (teamSub.filter fun r => decide (r.time_out = t)).map (·.player_id)) ∧
    (msgtype = 8 → selectOnCourt teamSub msgtype t =
      (teamSub.filter fun r => decide (r.time_in ≥ t ∧ r.time_out < t)).map (·.player_id)) ∧
    (msgtype ≠ 13 → msgtype ≠ 8 → selectOnCourt teamSub msgtype t =
      if (teamSub.filter fun r => decide (r.time_in ≥ t ∧ r.time_out ≤ t)).length > 5 then
        (teamSub.filter fun r => decide (r.time_in > t ∧ r.time_out ≤ t)).map (·.player_id)
      else
        (teamSub.filter fun r => decide (r.time_in ≥ t ∧ r.time_out ≤ t)).map (·.player_id)) := by
  refine ⟨fun h13 => ?_, fun h8 => ?_, fun h13 h8 => ?_⟩
  · simp [selectOnCourt, h13]
  · simp [selectOnCourt, h8]
  · simp only [selectOnCourt, if_neg h13, if_neg h8]

/-- Witness for C3 at concrete category codes. -/
theorem claim_C3_witness :
    selectOnCourt [] 13 0 = (([] : List SubRow).filter fun r =>
      decide (r.time_out = 0)).map (·.player_id) ∧
    selectOnCourt [] 8 0 = (([] : List SubRow).filter fun r =>
      decide (r.time_in ≥ 0 ∧ r.time_out < 0)).map (·.player_id) :=
  ⟨(claim_C3 [] 13 0).1 rfl, (claim_C3 [] 8 0).2.1 rfl⟩

/-- C9: the processing order is the input event collection sorted by
game_time_remaining descending, then period ascending, then event
sequence number ascending: the list the state machine consumes is a
rearrangement of the input and is sorted by exactly that key. -/
theorem claim_C9 (pbp : List Event) :
    (sortEvents (withGtr pbp)).Perm (withGtr pbp) ∧
    List.Sorted (fun a b => b.gtr < a.gtr ∨
      (a.gtr = b.gtr ∧ (a.ev.period < b.ev.period ∨
        (a.ev.period = b.ev.period ∧ a.ev.eventnum ≤ b.ev.eventnum))))
      (sortEvents (withGtr pbp)) :=
  ⟨List.perm_insertionSort keyLE (withGtr pbp),
   List.sorted_insertionSort keyLE (withGtr pbp)⟩

/-- C5: on any substitution event at time t with rostered participants, the
outgoing player v1 is removed from their side's on-court list if present and
the incoming player v2 appended if absent — the home side when player 1's
team id equals the home id, the visitor side otherwise, the other side
untouched; for v1, a null stored check-in accrues max_period_time - t with
max_period_time appended to the check-in sequence, a stored check-in w
accrues w - t; t is appended to v1's check-out sequence and the period
counter to its period sequence; v1's stored check-in is cleared and v2's
becomes t with t appended to v2's check-in sequence (when v1 = v2 the two
updates land on the same record: the check-in ends at t, not cleared), and
v2's other fields are untouched when v1 differs from v2. -/
theorem claim_C5 (hr vr : List ℤ) (hid : ℤ) (st : PState) (v1 v2 : ℤ) (p1t : Option ℤ)
    (t maxp : ℤ) (hv1 : v1 ∈ hr ∨ v1 ∈ vr) (hv2 : v2 ∈ hr ∨ v2 ∈ vr) :
    ∃ st', subStep hr vr hid st (some v1) (some v2) p1t t maxp = .ok st' ∧
      (p1t = some hid →
        st'.home_on_court =
          (if v2 ∈ st.home_on_court.erase v1 then st.home_on_court.erase v1
           else st.home_on_court.erase v1 ++ [v2]) ∧
        st'.visitor_on_court = st.visitor_on_court) ∧
      (p1t ≠ some hid →
        st'.visitor_on_court =
          (if v2 ∈ st.visitor_on_court.erase v1 then st.visitor_on_court.erase v1
           else st.visitor_on_court.erase v1 ++ [v2]) ∧
        st'.home_on_court = st.home_on_court) ∧
      ((st.bank v1).time_in = none →
        (st'.bank v1).playing_time = (st.bank v1).playing_time + (maxp - t) ∧
        (st'.bank v1).time_in_list =
          (st.bank v1).time_in_list ++ [maxp] ++ (if v1 = v2 then [t] else [])) ∧
      (∀ w, (st.bank v1).time_in = some w →
        (st'.bank v1).playing_time = (st.bank v1).playing_time + (w - t) ∧
        (st'.bank v1).time_in_list =
          (st.bank v1).time_in_list ++ (if v1 = v2 then [t] else [])) ∧
      (st'.bank v1).time_out_list = (st.bank v1).time_out_list ++ [t] ∧
      (st'.bank v1).period_list = (st.bank v1).period_list ++ [st.period] ∧
      (st'.bank v1).time_in = (if v1 = v2 then some t else none) ∧
      (st'.bank v2).time_in = some t ∧
      (v1 ≠ v2 →
        (st'.bank v2).time_in_list = (st.bank v2).time_in_list ++ [t] ∧
        (st'.bank v2).time_out_list = (st.bank v2).time_out_list ∧
        (st'.bank v2).period_list = (st.bank v2).period_list ∧
        (st'.bank v2).playing_time = (st.bank v2).playing_time) := by
  simp only [subStep]
  rw [if_pos hv1, if_pos hv2]
  refine ⟨_, rfl, fun hp => ?_, fun hp => ?_, ?_, ?_, ?_, ?_, ?_, ?_, fun hne => ?_⟩
  · rw [if_pos hp, if_pos hp]
    exact ⟨by simp only [removeIfPresent, appendIfAbsent], rfl⟩
  · rw [if_neg hp, if_neg hp]
    exact ⟨by simp only [removeIfPresent, appendIfAbsent], rfl⟩
  · intro h0
    dsimp only
    by_cases hvv : v1 = v2
    · subst hvv
      simp [h0]
    · simp [hvv, h0]
  · intro w hw
    dsimp only
    by_cases hvv : v1 = v2
    · subst hvv
      simp [hw]
    · simp [hvv, hw]
  · dsimp only
    by_cases hvv : v1 = v2
    · subst hvv
      rcases h1 : (st.bank v1).time_in <;> simp [h1]
    · rcases h1 : (st.bank v1).time_in <;> simp [hvv, h1]
  · dsimp only
    by_cases hvv : v1 = v2
    · subst hvv
      rcases h1 : (st.bank v1).time_in <;> simp [h1]
    · rcases h1 : (st.bank v1).time_in <;> simp [hvv, h1]
  · dsimp only
    by_cases hvv : v1 = v2
    · subst hvv
      simp
    · simp [hvv]
  · dsimp only
    simp
  · dsimp only
    simp [Ne.symm hne]

/-- Witness for C5: the concrete scenario of the spec, a home substitution at
t = 1000 whose outgoing implicit starter carries max_period_time = 1530:
the outgoing player accrues 530, the closed interval pair is (1530, 1000),
the incoming player joins the home court and opens a check-in at 1000. -/
theorem claim_C5_witness :
    ∃ st', subStep [1, 2] [] 100 initState (some 1) (some 2) (some 100) 1000 1530 = .ok st' ∧
      st'.home_on_court = [2] ∧
      (st'.bank 1).playing_time = 530 ∧
      (st'.bank 1).time_in_list.zip (st'.bank 1).time_out_list = [(1530, 1000)] ∧
      (st'.bank 2).time_in = some 1000 := by
  obtain ⟨st', heq, hhome, hvis, hnone, hsome, hout, hper, htin, hb2, hrest⟩ :=
    claim_C5 [1, 2] [] 100 initState 1 2 (some 100) 1000 1530
      (Or.inl (by decide)) (Or.inl (by decide))
  obtain ⟨hpt, hil⟩ := hnone rfl
  refine ⟨st', heq, ?_, ?_, ?_, hb2⟩
  · rw [(hhome rfl).1]; decide
  · rw [hpt]; decide
  · rw [hil, hout]; decide

theorem subStep_period {hr vr : List ℤ} {hid : ℤ} {st : PState} {p1 p2 p1t : Option ℤ}
    {t maxp : ℤ} {st' : PState} (h : subStep hr vr hid st p1 p2 p1t t maxp = .ok st') :
    st'.period = st.period := by
  unfold subStep at h
  rcases p1 with _ | v1
  · cases h
  · simp only at h
    split at h
    · rcases p2 with _ | v2
      · cases h
      · simp only at h
        split at h
        · cases h
          split <;> rfl
        · cases h
    · cases h

theorem addParticipant_period (hr vr : List ℤ) (maxp : ℤ) (st : PState) (p : Option ℤ) :
    (addParticipant hr vr maxp st p).period = st.period := by
  unfold addParticipant
  rcases p with _ | v
  · rfl
  · simp only
    split
    · rfl
    · split <;> rfl

theorem periodEndStep_period {hr vr : List ℤ} {st : PState} {t : ℤ} {st' : PState}
    (h : periodEndStep hr vr st t = .ok st') : st'.period = st.period + 1 := by
  unfold periodEndStep at h
  split at h
  · cases h
  · cases h
    rfl

theorem processEvent_period {hr vr : List ℤ} {hid : ℤ} {st : PState} {e : GEvent}
    {st' : PState} (h : processEvent hr vr hid st e = .ok st') :
    st'.period = (if e.ev.eventmsgtype = 13 then st.period + 1 else st.period) := by
  unfold processEvent at h
  split at h
  · rename_i h8
    rw [if_neg (by omega)]
    exact subStep_period h
  · split at h
    · rename_i h8 h13
      rw [if_pos h13]
      exact periodEndStep_period h
    · rename_i h8 h13
      rw [if_neg h13]
      split at h
      · cases h
        simp only [addParticipant_period]
      · cases h
        rfl

theorem runEvents_period {hr vr : List ℤ} {hid : ℤ} :
    ∀ {l : List GEvent} {st st' : PState}, runEvents hr vr hid st l = .ok st' →
      st'.period = st.period + l.countP (fun e => decide (e.ev.eventmsgtype = 13)) := by
  intro l
  induction l with
  | nil =>
    intro st st' h
    cases h
    simp
  | cons e rest ih =>
    intro st st' h
    unfold runEvents at h
    split at h
    · cases h
    · rename_i st1 hstep
      have := ih h
      have hper := processEvent_period hstep
      rw [List.countP_cons]
      by_cases h13 : e.ev.eventmsgtype = 13 <;> simp [h13] at hper ⊢ <;> omega

theorem subStep_period_append {hr vr : List ℤ} {hid : ℤ} {st : PState} {v1 : ℤ}
    {p2 p1t : Option ℤ} {t maxp : ℤ} {st' : PState}
    (h : subStep hr vr hid st (some v1) p2 p1t t maxp = .ok st') :
    (st'.bank v1).period_list = (st.bank v1).period_list ++ [st.period] := by
  unfold subStep at h
  simp only at h
  split at h
  · rcases p2 with _ | v2
    · cases h
    · simp only at h
      split at h
      · cases h
        by_cases hv : v1 = v2
        · subst hv
          rcases htin : (st.bank v1).time_in <;> simp [htin]
        · rcases htin : (st.bank v1).time_in <;> simp [htin, hv]
      · cases h
  · cases h

theorem closeOne_frame {hr vr : List ℤ} {per : ℕ} {t : ℤ} {bank : ℤ → PRec} {pid : ℤ}
    {bank' : ℤ → PRec} (h : closeOne hr vr per t bank pid = .ok bank') {q : ℤ}
    (hq : q ≠ pid) : bank' q = bank q := by
  simp only [closeOne] at h
  split at h
  · split at h
    · cases h
    · cases h
      simp [hq]
  · cases h

theorem closeOne_self {hr vr : List ℤ} {per : ℕ} {t : ℤ} {bank : ℤ → PRec} {pid : ℤ}
    {bank' : ℤ → PRec} (h : closeOne hr vr per t bank pid = .ok bank') :
    (bank' pid).period_list = (bank pid).period_list ++ [per] ∧
    (bank' pid).time_in = none := by
  simp only [closeOne] at h
  split at h
  · split at h
    · cases h
    · cases h
      simp
  · cases h

theorem closeAll_frame {hr vr : List ℤ} {per : ℕ} {t : ℤ} :
    ∀ {pids : List ℤ} {bank bank' : ℤ → PRec} {q : ℤ},
      closeAll hr vr per t bank pids = .ok bank' → q ∉ pids → bank' q = bank q := by
  intro pids
  induction pids with
  | nil =>
    intro bank bank' q h hq
    cases h
    rfl
  | cons p rest ih =>
    intro bank bank' q h hq
    unfold closeAll at h
    split at h
    · cases h
    · rename_i bank1 h1
      have hqp : q ≠ p := fun hc => hq (by rw [hc]; exact List.mem_cons_self p rest)
      have hqr : q ∉ rest := fun hc => hq (List.mem_cons_of_mem p hc)
      rw [ih h hqr]
      exact closeOne_frame h1 hqp

theorem closeAll_none_mem {hr vr : List ℤ} {per : ℕ} {t : ℤ} :
    ∀ {pids : List ℤ} {bank bank' : ℤ → PRec} {pid : ℤ},
      (bank pid).time_in = none → pid ∈ pids →
      closeAll hr vr per t bank pids = .ok bank' → False := by
  intro pids
  induction pids with
  | nil =>
    intro bank bank' pid _ hmem _
    exact absurd hmem (List.not_mem_nil pid)
  | cons p rest ih =>
    intro bank bank' pid h0 hmem h
    unfold closeAll at h
    split at h
    · cases h
    · rename_i bank1 h1
      by_cases hpp : pid = p
      · subst hpp
        simp only [closeOne, h0] at h1
        split at h1 <;> cases h1
      · have hrest : pid ∈ rest := by
          rcases List.mem_cons.mp hmem with hc | hc
          · exact absurd hc hpp
          · exact hc
        exact ih (by rw [closeOne_frame h1 hpp]; exact h0) hrest h

theorem closeAll_period_append {hr vr : List ℤ} {per : ℕ} {t : ℤ} :
    ∀ {pids : List ℤ} {bank bank' : ℤ → PRec} {pid : ℤ},
      pid ∈ pids → closeAll hr vr per t bank pids = .ok bank' →
      (bank' pid).period_list = (bank pid).period_list ++ [per] := by
  intro pids
  induction pids with
  | nil =>
    intro bank bank' pid hmem _
    exact absurd hmem (List.not_mem_nil pid)
  | cons p rest ih =>
    intro bank bank' pid hmem h
    unfold closeAll at h
    split at h
    · cases h
    · rename_i bank1 h1
      by_cases hpp : pid = p
      · subst hpp
        obtain ⟨hper, h0⟩ := closeOne_self h1
        by_cases hmr : pid ∈ rest
        · exact (closeAll_none_mem h0 hmr h).elim
        · rw [closeAll_frame h hmr, hper]
      · have hrest : pid ∈ rest := by
          rcases List.mem_cons.mp hmem with hc | hc
          · exact absurd hc hpp
          · exact hc
        rw [ih hrest h, closeOne_frame h1 hpp]

/-- C10: the period value recorded in period-history sequences is the
internal counter, which starts at 1 and advances exactly with the number
of category-13 events consumed; at both append sites the value written is
that counter, read nowhere from the event's own period field: at a
substitution the value appended for the outgoing player is the counter,
and at a period end the value appended for every on-court player of
either team is the counter — in each case it differs from the event's
period field whenever the field is not one more than the number of
period-end events already consumed. -/
theorem claim_C10 (hr vr : List ℤ) (hid : ℤ) :
    initState.period = 1 ∧
    (∀ (l : List GEvent) (st st' : PState), runEvents hr vr hid st l = .ok st' →
      st'.period = st.period + l.countP (fun e => decide (e.ev.eventmsgtype = 13))) ∧
    (∀ (st : PState) (e : GEvent) (st' : PState) (v1 : ℤ),
      e.ev.eventmsgtype = 8 → e.ev.player1_id = some v1 →
      processEvent hr vr hid st e = .ok st' →
      (st'.bank v1).period_list = (st.bank v1).period_list ++ [st.period] ∧
      (e.ev.period ≠ st.period →
        (st'.bank v1).period_list.getLast? ≠ some e.ev.period)) ∧
    (∀ (st : PState) (e : GEvent) (st' : PState) (pid : ℤ),
      e.ev.eventmsgtype = 13 →
      processEvent hr vr hid st e = .ok st' →
      pid ∈ st.home_on_court ++ st.visitor_on_court →
      (st'.bank pid).period_list = (st.bank pid).period_list ++ [st.period] ∧
      (e.ev.period ≠ st.period →
        (st'.bank pid).period_list.getLast? ≠ some e.ev.period)) := by
  refine ⟨rfl, fun l st st' h => runEvents_period h,
    fun st e st' v1 h8 hp1 h => ?_, fun st e st' pid h13 h hmem => ?_⟩
  · unfold processEvent at h
    rw [if_pos h8, hp1] at h
    have happ := subStep_period_append h
    refine ⟨happ, fun hne => ?_⟩
    rw [happ, List.getLast?_concat]
    intro hcon
    exact hne (Option.some.injEq _ _ ▸ hcon).symm
  · unfold processEvent at h
    rw [if_neg (by omega), if_pos h13] at h
    unfold periodEndStep at h
    split at h
    · cases h
    · rename_i bank1 hca
      cases h
      dsimp only
      have happ := closeAll_period_append hmem hca
      refine ⟨happ, fun hne => ?_⟩
      rw [happ, List.getLast?_concat]
      intro hcon
      exact hne (Option.some.injEq _ _ ▸ hcon).symm

/-- Witness for C10: running the first concrete game, whose single
category-13 event advances the counter from 1 to 2. -/
theorem claim_C10_witness :
    (runEvents homeRosterA visitorRosterA 100 initState
      (sortEvents (withGtr gameA))).map PState.period = .ok 2 := by
  have hok : (runEvents homeRosterA visitorRosterA 100 initState
      (sortEvents (withGtr gameA))).isOk = true := by decide
  rcases hrun : runEvents homeRosterA visitorRosterA 100 initState
      (sortEvents (withGtr gameA)) with err | st'
  · rw [hrun] at hok
    cases hok
  · have h2 := (claim_C10 homeRosterA visitorRosterA 100).2.1 _ _ _ hrun
    have hper : st'.period = 2 := by
      rw [h2]
      decide
    show Except.ok st'.period = Except.ok 2
    rw [hper]

theorem assignGo_ok {subDf : List SubRow} {home_id visitor_id : ℤ} :
    ∀ {l : List GEvent} {idx : ℕ} {table : List LineupRow},
      assignGo subDf home_id visitor_id idx l = .ok table →
      (∀ e ∈ l, teamCount subDf home_id e = 5 ∧ teamCount subDf visitor_id e = 5) ∧
      table.length = l.length ∧
      ∀ row ∈ table, row.home_players.length = 5 ∧ row.visitor_players.length = 5 := by
  intro l
  induction l with
  | nil =>
    intro idx table h
    cases h
    exact ⟨fun e he => absurd he (List.not_mem_nil e), rfl, fun row hrow =>
      absurd hrow (List.not_mem_nil row)⟩
  | cons e rest ih =>
    intro idx table h
    simp only [assignGo] at h
    by_cases h5 : (selectOnCourt (List.filter (fun r => decide (r.team_id = home_id)) subDf)
        e.ev.eventmsgtype e.gtr).length = 5
    · rw [if_pos h5] at h
      by_cases v5 : (selectOnCourt (List.filter (fun r => decide (r.team_id = visitor_id)) subDf)
          e.ev.eventmsgtype e.gtr).length = 5
      · rw [if_pos v5] at h
        rcases hrec : assignGo subDf home_id visitor_id (idx + 1) rest with err | rows
        · rw [hrec] at h
          cases h
        · rw [hrec] at h
          cases h
          obtain ⟨hcounts, hlen, hrows⟩ := ih hrec
          refine ⟨?_, by simpa using hlen, ?_⟩
          · intro e' he'
            rcases List.mem_cons.mp he' with rfl | hmem
            · exact ⟨h5, v5⟩
            · exact hcounts e' hmem
          · intro row hrow
            rcases List.mem_cons.mp hrow with rfl | hmem
            · exact ⟨h5, v5⟩
            · exact hrows row hmem
      · rw [if_neg v5] at h
        cases h
    · rw [if_neg h5] at h
      cases h

theorem assignGo_error {subDf : List SubRow} {home_id visitor_id : ℤ} :
    ∀ {l : List GEvent} {idx : ℕ} {err : AssignError},
      assignGo subDf home_id visitor_id idx l = .error err →
      idx ≤ err.index ∧ ∃ e, l[err.index - idx]? = some e ∧
        ((err.team_id = home_id ∧ teamCount subDf home_id e ≠ 5) ∨
         (err.team_id = visitor_id ∧ teamCount subDf home_id e = 5 ∧
           teamCount subDf visitor_id e ≠ 5)) := by
  intro l
  induction l with
  | nil =>
    intro idx err h
    cases h
  | cons e rest ih =>
    intro idx err h
    simp only [assignGo] at h
    by_cases h5 : (selectOnCourt (List.filter (fun r => decide (r.team_id = home_id)) subDf)
        e.ev.eventmsgtype e.gtr).length = 5
    · rw [if_pos h5] at h
      by_cases v5 : (selectOnCourt (List.filter (fun r => decide (r.team_id = visitor_id)) subDf)
          e.ev.eventmsgtype e.gtr).length = 5
      · rw [if_pos v5] at h
        rcases hrec : assignGo subDf home_id visitor_id (idx + 1) rest with err' | rows
        · rw [hrec] at h
          cases h
          obtain ⟨hle, e', he', hP⟩ := ih hrec
          refine ⟨by omega, e', ?_, hP⟩
          have harith : err.index - idx = (err.index - (idx + 1)) + 1 := by omega
          rw [harith, List.getElem?_cons_succ]
          exact he'
        · rw [hrec] at h
          cases h
      · rw [if_neg v5] at h
        cases h
        exact ⟨Nat.le_refl idx, e, by simp, Or.inr ⟨rfl, h5, v5⟩⟩
    · rw [if_neg h5] at h
      cases h
      exact ⟨Nat.le_refl idx, e, by simp, Or.inl ⟨rfl, h5⟩⟩

/-- C1 (amended): whenever the final team filter yields a count other than
5 for some team at some event, the assignment pass aborts with an error
that carries the offending team id and the positional index of the event
in the sorted processing order (not its event sequence number), the error
names an actual offender, and a successful pass means every event-team
count is exactly 5, so a mismatch is never silently repaired. -/
theorem claim_C1_amended (subDf : List SubRow) (pbp : List GEvent) (home_id visitor_id : ℤ) :
    (∀ table, assign_players_on_court subDf pbp home_id visitor_id = .ok table →
      ∀ e ∈ pbp, teamCount subDf home_id e = 5 ∧ teamCount subDf visitor_id e = 5) ∧
    (∀ err, assign_players_on_court subDf pbp home_id visitor_id = .error err →
      ∃ e, pbp[err.index]? = some e ∧
        ((err.team_id = home_id ∧ teamCount subDf home_id e ≠ 5) ∨
         (err.team_id = visitor_id ∧ teamCount subDf home_id e = 5 ∧
           teamCount subDf visitor_id e ≠ 5))) := by
  constructor
  · intro table h
    exact (assignGo_ok h).1
  · intro err h
    obtain ⟨-, e, he, hP⟩ := @assignGo_error subDf home_id visitor_id pbp 0 err h
    rw [Nat.sub_zero] at he
    exact ⟨e, he, hP⟩

/-- A probe event whose sequence number 10 differs from its position 0. -/
def evC1 : Event :=
  { game_id := 0, eventnum := 10, period := 1, clock_min := 5, clock_sec := 0,
    eventmsgtype := 1 }

/-- Counterexample for C1 as stated: with an empty interval table the
filter yields 0 matches at the first event, and the raised error carries
index 0, the event's position, not 10, its event sequence number. -/
theorem claim_C1_counterexample :
    assign_players_on_court [] [⟨evC1, 2100⟩] 100 200 = .error ⟨100, 0⟩ ∧
    evC1.eventnum = 10 ∧ (0 : ℕ) ≠ 10 :=
  ⟨rfl, rfl, by decide⟩

/-- Witness for C1 (amended) at a concrete failing input. -/
theorem claim_C1_amended_witness : teamCount [] 100 ⟨evC1, 2100⟩ ≠ 5 := by
  obtain ⟨e, he, hP⟩ :=
    (claim_C1_amended [] [⟨evC1, 2100⟩] 100 200).2 ⟨100, 0⟩ rfl
  simp only [List.getElem?_cons_zero, Option.some.injEq] at he
  subst he
  rcases hP with ⟨-, hne⟩ | ⟨habs, -⟩
  · exact hne
  · exact absurd habs (by decide)

theorem process_pbp_data_sorted {pbp : List Event} {hr vr : List ℤ} {hid vid : ℤ}
    {subDf : List SubRow} {sorted : List GEvent}
    (h : process_pbp_data pbp hr vr hid vid = .ok (subDf, sorted)) :
    sorted = sortEvents (withGtr pbp) := by
  simp only [process_pbp_data] at h
  split at h
  · cases h
  · split at h
    · cases h
    · cases h
      rfl

theorem sortEvents_length (l : List GEvent) : (sortEvents l).length = l.length :=
  (List.perm_insertionSort keyLE l).length_eq

/-- C2 (amended): whenever the pipeline completes without error, the
lineup table has exactly one row per input event and every row carries
exactly 5 home player ids and exactly 5 visitor player ids; the five of a
side need not be pairwise distinct. -/
theorem claim_C2_amended (pbp : List Event) (hr vr : List ℤ) (hid vid : ℤ)
    (table : List LineupRow) (h : pipeline pbp hr vr hid vid = .ok table) :
    table.length = pbp.length ∧
    ∀ row ∈ table, row.home_players.length = 5 ∧ row.visitor_players.length = 5 := by
  unfold pipeline at h
  rcases hproc : process_pbp_data pbp hr vr hid vid with e | pair
  · rw [hproc] at h
    cases h
  · rw [hproc] at h
    obtain ⟨subDf, sorted⟩ := pair
    dsimp only at h
    rcases hassign : assign_players_on_court subDf sorted hid vid with e2 | table'
    · rw [hassign] at h
      cases h
    · rw [hassign] at h
      cases h
      obtain ⟨-, hlen, hrows⟩ := assignGo_ok hassign
      refine ⟨?_, hrows⟩
      rw [hlen, process_pbp_data_sorted hproc, sortEvents_length]
      simp [withGtr]

/-- Counterexample for C2 as stated: on the first concrete game the
pipeline completes, yet the home half of the first three rows lists
player 1 twice, so the five ids of a side are not always distinct. -/
theorem claim_C2_counterexample :
    (pipeline gameA homeRosterA visitorRosterA 100 200).map (fun tbl =>
        tbl.map (·.home_players)) =
      .ok [[1, 1, 2, 3, 4], [1, 1, 2, 3, 4], [1, 1, 2, 3, 4],
           [1, 2, 3, 4, 6], [1, 2, 3, 4, 6], [1, 2, 3, 4, 6]] ∧
    ¬ ([1, 1, 2, 3, 4] : List ℤ).Nodup :=
  ⟨rfl, by decide⟩

/-- Witness for C2 (amended): the second concrete game completes and its
table has one row per input event. -/
theorem claim_C2_amended_witness :
    (pipeline gameB homeRosterB visitorRosterB 100 200).map List.length = .ok gameB.length := by
  have hok : (pipeline gameB homeRosterB visitorRosterB 100 200).isOk = true := by decide
  rcases hpipe : pipeline gameB homeRosterB visitorRosterB 100 200 with e | table
  · rw [hpipe] at hok
    cases hok
  · have hlen := (claim_C2_amended gameB homeRosterB visitorRosterB 100 200 table hpipe).1
    show Except.ok table.length = Except.ok gameB.length
    rw [hlen]

/-- C6 (amended): a substitution event naming a participant id (outgoing
or incoming) on neither roster makes the state machine fail with the
KeyError of the time-bank lookup, while a generic play event never fails
and silently skips any named participant on neither roster. -/
theorem claim_C6_amended (hr vr : List ℤ) (hid : ℤ) (st : PState) (e : GEvent) :
    (e.ev.eventmsgtype = 8 →
      (∃ v, (e.ev.player1_id = some v ∨ e.ev.player2_id = some v) ∧ v ∉ hr ∧ v ∉ vr) →
      ∃ err, processEvent hr vr hid st e = .error err) ∧
    (e.ev.eventmsgtype ≤ 5 → ∃ st', processEvent hr vr hid st e = .ok st') ∧
    (∀ v maxp, v ∉ hr → v ∉ vr → addParticipant hr vr maxp st (some v) = st) := by
  refine ⟨fun h8 hv => ?_, fun hle => ?_, fun v maxp hv1 hv2 => ?_⟩
  · unfold processEvent
    rw [if_pos h8]
    obtain ⟨v, hv12, hnh, hnv⟩ := hv
    rcases hp1 : e.ev.player1_id with _ | v1
    · exact ⟨.keyError none, by simp [subStep]⟩
    · by_cases hmem : v1 ∈ hr ∨ v1 ∈ vr
      · rcases hv12 with hp1v | hp2v
        · rw [hp1, Option.some.injEq] at hp1v
          subst hp1v
          rcases hmem with hmem | hmem <;> contradiction
        · refine ⟨.keyError (some v), ?_⟩
          rw [hp2v]
          simp [subStep, hmem, hnh, hnv]
      · exact ⟨.keyError (some v1), by simp [subStep, hmem]⟩
  · refine ⟨addParticipant hr vr (evTimes e).2
        (addParticipant hr vr (evTimes e).2
          (addParticipant hr vr (evTimes e).2 st e.ev.player1_id) e.ev.player2_id)
        e.ev.player3_id, ?_⟩
    unfold processEvent
    rw [if_neg (show ¬ e.ev.eventmsgtype = 8 by omega),
      if_neg (show ¬ e.ev.eventmsgtype = 13 by omega), if_pos hle]
    rfl
  · simp [addParticipant, hv1, hv2]

/-- Counterexample for C6 as stated: the second concrete game names
participant 999, an id on neither roster, in a generic play, yet the
pipeline completes without error and 999 appears in no lineup row: the
participant is silently dropped. -/
theorem claim_C6_counterexample :
    gameB.any (fun e => e.player1_id == some 999) = true ∧
    ((999 : ℤ) ∉ homeRosterB ∧ (999 : ℤ) ∉ visitorRosterB) ∧
    (pipeline gameB homeRosterB visitorRosterB 100 200).isOk = true ∧
    (match pipeline gameB homeRosterB visitorRosterB 100 200 with
     | .ok tbl => decide (∀ row ∈ tbl,
        (999 : ℤ) ∉ row.home_players ∧ (999 : ℤ) ∉ row.visitor_players)
     | .error _ => false) = true :=
  ⟨by decide, by decide, by decide, by decide⟩

/-- A substitution event naming the unrostered id 999 as its outgoing
participant. -/
def subEvC6 : Event :=
  { game_id := 0, eventnum := 1, period := 1, clock_min := 5, clock_sec := 0,
    eventmsgtype := 8, player1_id := some 999, player2_id := some 1,
    player1_team_id := some 100 }

/-- Witness for C6 (amended) at a concrete substitution event. -/
theorem claim_C6_amended_witness :
    (processEvent [1] [2] 100 initState ⟨subEvC6, 2100⟩).isOk = false := by
  obtain ⟨err, herr⟩ := (claim_C6_amended [1] [2] 100 initState ⟨subEvC6, 2100⟩).1 rfl
    ⟨999, Or.inl rfl, by decide, by decide⟩
  rw [herr]
  rfl

/-- The closed interval pairs of a record: the zip of its check-in and
check-out sequences, exactly what playerRows materializes. -/
def pairsOf (r : PRec) : List (ℤ × ℤ) :=
  r.time_in_list.zip r.time_out_list

/-- The accumulated counter equals the summed spans of the closed pairs. -/
def sumOk (r : PRec) : Prop :=
  ((pairsOf r).map fun q => q.1 - q.2).sum = r.playing_time

/-- A record with no open check-in and balanced sequences. -/
def StructClosed (r : PRec) : Prop :=
  r.time_in = none ∧ r.time_in_list.length = r.time_out_list.length

/-- A record with one open check-in, stored as the last check-in entry. -/
def StructOpen (r : PRec) : Prop :=
  ∃ v, r.time_in = some v ∧ r.time_in_list.length = r.time_out_list.length + 1 ∧
    r.time_in_list.getLast? = some v

/-- A record whose sequences have drifted out of balance; once entered,
this shape persists and the final interval materialization must fail. -/
def RecBroken (r : PRec) : Prop :=
  (r.time_in = none ∧ r.time_out_list.length < r.time_in_list.length) ∨
  (r.time_in ≠ none ∧ r.time_out_list.length + 2 ≤ r.time_in_list.length)

/-- Invariant of one time-bank record for the round-trip claim. -/
def SumInv (r : PRec) : Prop :=
  ((StructClosed r ∨ StructOpen r) ∧ sumOk r) ∨ RecBroken r

theorem zip_concat_left {l₁ l₂ : List ℤ} (h : l₁.length = l₂.length) (x : ℤ) :
    (l₁ ++ [x]).zip l₂ = l₁.zip l₂ := by
  conv_lhs => rw [show l₂ = l₂ ++ [] from (List.append_nil l₂).symm]
  rw [List.zip_append h]
  simp

theorem zip_concat_both {l₁ l₂ : List ℤ} (h : l₁.length = l₂.length) (x y : ℤ) :
    (l₁ ++ [x]).zip (l₂ ++ [y]) = l₁.zip l₂ ++ [(x, y)] := by
  rw [List.zip_append h]
  rfl

theorem sumInv_close {r : PRec} {w : ℤ} (t : ℤ) (per : ℕ) (h : SumInv r)
    (hw : r.time_in = some w) :
    SumInv { r with
      playing_time := r.playing_time + (w - t)
      time_in := none
      time_out_list := r.time_out_list ++ [t]
      period_list := r.period_list ++ [per] } := by
  rcases h with ⟨hs | ho, hsum⟩ | hb
  · rw [hs.1] at hw
    cases hw
  · obtain ⟨v, hv, hlen, hlast⟩ := ho
    rw [hv, Option.some.injEq] at hw
    have hne : r.time_in_list ≠ [] := by
      intro hnil
      rw [hnil] at hlen
      simp at hlen
    have hdl : r.time_in_list.dropLast.length = r.time_out_list.length := by
      have := List.length_dropLast r.time_in_list
      omega
    have hdecomp : r.time_in_list.dropLast ++ [w] = r.time_in_list := by
      have h1 := List.dropLast_append_getLast hne
      have h2 : r.time_in_list.getLast hne = w := by
        rw [List.getLast?_eq_getLast r.time_in_list hne, Option.some.injEq] at hlast
        rw [hlast, hw]
      rw [h2] at h1
      exact h1
    refine Or.inl ⟨Or.inl ⟨rfl, by simp; omega⟩, ?_⟩
    unfold sumOk pairsOf at *
    simp only
    conv_lhs => rw [← hdecomp]
    rw [zip_concat_both hdl, List.map_append, List.sum_append]
    have hzip : r.time_in_list.dropLast.zip r.time_out_list =
        r.time_in_list.zip r.time_out_list := by
      conv_rhs => rw [← hdecomp]
      rw [zip_concat_left hdl]
    rw [hzip, hsum]
    simp
  · rcases hb with ⟨hn, -⟩ | ⟨-, hlt⟩
    · rw [hn] at hw
      cases hw
    · refine Or.inr (Or.inl ⟨rfl, ?_⟩)
      simp
      omega

theorem sumInv_implicitClose {r : PRec} (t maxp : ℤ) (per : ℕ) (h : SumInv r)
    (hnone : r.time_in = none) :
    SumInv { r with
      playing_time := r.playing_time + (maxp - t)
      time_in := none
      time_in_list := r.time_in_list ++ [maxp]
      time_out_list := r.time_out_list ++ [t]
      period_list := r.period_list ++ [per] } := by
  rcases h with ⟨hs | ho, hsum⟩ | hb
  · refine Or.inl ⟨Or.inl ⟨rfl, by simp [hs.2]⟩, ?_⟩
    unfold sumOk pairsOf at *
    simp only
    rw [zip_concat_both hs.2, List.map_append, List.sum_append]
    simp [hsum]
  · obtain ⟨v, hv, -, -⟩ := ho
    rw [hnone] at hv
    cases hv
  · rcases hb with ⟨-, hlt⟩ | ⟨hne, -⟩
    · refine Or.inr (Or.inl ⟨rfl, ?_⟩)
      simp
      omega
    · exact absurd hnone hne

theorem sumInv_open {r : PRec} (x : ℤ) (h : SumInv r) :
    SumInv { r with time_in := some x, time_in_list := r.time_in_list ++ [x] } := by
  rcases h with ⟨hs | ho, hsum⟩ | hb
  · refine Or.inl ⟨Or.inr ⟨x, rfl, by simp [hs.2], by simp⟩, ?_⟩
    unfold sumOk pairsOf at *
    simp only
    rw [zip_concat_left hs.2]
    exact hsum
  · obtain ⟨v, hv, hlen, -⟩ := ho
    refine Or.inr (Or.inr ⟨by simp, ?_⟩)
    simp
    omega
  · rcases hb with ⟨-, hlt⟩ | ⟨-, hlt⟩
    · refine Or.inr (Or.inr ⟨by simp, ?_⟩)
      simp
      omega
    · refine Or.inr (Or.inr ⟨by simp, ?_⟩)
      simp
      omega

theorem sumInv_init (p : ℤ) : SumInv (initState.bank p) :=
  Or.inl ⟨Or.inl ⟨rfl, rfl⟩, rfl⟩

theorem subStep_sumInv {hr vr : List ℤ} {hid : ℤ} {st : PState} {p1 p2 p1t : Option ℤ}
    {t maxp : ℤ} {st' : PState} (h : subStep hr vr hid st p1 p2 p1t t maxp = .ok st')
    (hinv : ∀ p, SumInv (st.bank p)) : ∀ p, SumInv (st'.bank p) := by
  unfold subStep at h
  rcases p1 with _ | v1
  · cases h
  · simp only at h
    split at h
    · rcases p2 with _ | v2
      · cases h
      · simp only at h
        split at h
        · cases h
          intro p
          rcases hb1 : (st.bank v1).time_in with _ | w
          · have hr1b : SumInv { st.bank v1 with
                playing_time := (st.bank v1).playing_time + (maxp - t)
                time_in := none
                time_in_list := (st.bank v1).time_in_list ++ [maxp]
                time_out_list := (st.bank v1).time_out_list ++ [t]
                period_list := (st.bank v1).period_list ++ [st.period] } :=
              sumInv_implicitClose t maxp st.period (hinv v1) hb1
            by_cases hp2 : p = v2
            · subst hp2
              show SumInv (if p = p then _ else _)
              rw [if_pos rfl]
              by_cases hv21 : p = v1
              · subst hv21
                show SumInv { (if p = p then _ else _ : PRec) with
                  time_in := some t,
                  time_in_list := (if p = p then _ else _ : PRec).time_in_list ++ [t] }
                rw [if_pos rfl]
                exact sumInv_open t hr1b
              · show SumInv { (if p = v1 then _ else _ : PRec) with
                  time_in := some t,
                  time_in_list := (if p = v1 then _ else _ : PRec).time_in_list ++ [t] }
                rw [if_neg hv21]
                exact sumInv_open t (hinv p)
            · show SumInv (if p = v2 then _ else if p = v1 then _ else _)
              rw [if_neg hp2]
              by_cases hp1 : p = v1
              · subst hp1
                rw [if_pos rfl]
                exact hr1b
              · rw [if_neg hp1]
                exact hinv p
          · have hr1b : SumInv { st.bank v1 with
                playing_time := (st.bank v1).playing_time + (w - t)
                time_in := none
                time_out_list := (st.bank v1).time_out_list ++ [t]
                period_list := (st.bank v1).period_list ++ [st.period] } :=
              sumInv_close t st.period (hinv v1) hb1
            by_cases hp2 : p = v2
            · subst hp2
              show SumInv (if p = p then _ else _)
              rw [if_pos rfl]
              by_cases hv21 : p = v1
              · subst hv21
                show SumInv { (if p = p then _ else _ : PRec) with
                  time_in := some t,
                  time_in_list := (if p = p then _ else _ : PRec).time_in_list ++ [t] }
                rw [if_pos rfl]
                exact sumInv_open t hr1b
              · show SumInv { (if p = v1 then _ else _ : PRec) with
                  time_in := some t,
                  time_in_list := (if p = v1 then _ else _ : PRec).time_in_list ++ [t] }
                rw [if_neg hv21]
                exact sumInv_open t (hinv p)
            · show SumInv (if p = v2 then _ else if p = v1 then _ else _)
              rw [if_neg hp2]
              by_cases hp1 : p = v1
              · subst hp1
                rw [if_pos rfl]
                exact hr1b
              · rw [if_neg hp1]
                exact hinv p
        · cases h
    · cases h

theorem closeOne_sumInv {hr vr : List ℤ} {per : ℕ} {t : ℤ} {bank : ℤ → PRec} {pid : ℤ}
    {bank' : ℤ → PRec} (h : closeOne hr vr per t bank pid = .ok bank')
    (hinv : ∀ p, SumInv (bank p)) : ∀ p, SumInv (bank' p) := by
  simp only [closeOne] at h
  split at h
  · rcases hb : (bank pid).time_in with _ | w
    · rw [hb] at h
      cases h
    · rw [hb] at h
      simp only at h
      cases h
      intro p
      by_cases hp : p = pid
      · subst hp
        show SumInv (if p = p then _ else _)
        rw [if_pos rfl]
        exact sumInv_close t per (hinv p) hb
      · show SumInv (if p = pid then _ else _)
        rw [if_neg hp]
        exact hinv p
  · cases h

theorem closeAll_sumInv {hr vr : List ℤ} {per : ℕ} {t : ℤ} :
    ∀ {pids : List ℤ} {bank bank' : ℤ → PRec},
      closeAll hr vr per t bank pids = .ok bank' →
      (∀ p, SumInv (bank p)) → ∀ p, SumInv (bank' p) := by
  intro pids
  induction pids with
  | nil =>
    intro bank bank' h hinv
    cases h
    exact hinv
  | cons pid rest ih =>
    intro bank bank' h hinv
    unfold closeAll at h
    split at h
    · cases h
    · rename_i bank1 h1
      exact ih h (closeOne_sumInv h1 hinv)

theorem addParticipant_sumInv {hr vr : List ℤ} {maxp : ℤ} {st : PState} {po : Option ℤ}
    (hinv : ∀ p, SumInv (st.bank p)) :
    ∀ p, SumInv ((addParticipant hr vr maxp st po).bank p) := by
  unfold addParticipant
  rcases po with _ | v
  · exact hinv
  · simp only
    split
    · intro p
      by_cases hp : p = v
      · subst hp
        show SumInv (if p = p then _ else _)
        rw [if_pos rfl]
        exact sumInv_open maxp (hinv p)
      · show SumInv (if p = v then _ else _)
        rw [if_neg hp]
        exact hinv p
    · split
      · intro p
        by_cases hp : p = v
        · subst hp
          show SumInv (if p = p then _ else _)
          rw [if_pos rfl]
          exact sumInv_open maxp (hinv p)
        · show SumInv (if p = v then _ else _)
          rw [if_neg hp]
          exact hinv p
      · exact hinv

theorem processEvent_sumInv {hr vr : List ℤ} {hid : ℤ} {st : PState} {e : GEvent}
    {st' : PState} (h : processEvent hr vr hid st e = .ok st')
    (hinv : ∀ p, SumInv (st.bank p)) : ∀ p, SumInv (st'.bank p) := by
  simp only [processEvent] at h
  split at h
  · exact subStep_sumInv h hinv
  · split at h
    · unfold periodEndStep at h
      split at h
      · cases h
      · rename_i bank' hca
        cases h
        exact closeAll_sumInv hca hinv
    · split at h
      · cases h
        exact addParticipant_sumInv (addParticipant_sumInv (addParticipant_sumInv hinv))
      · cases h
        exact hinv

theorem runEvents_sumInv {hr vr : List ℤ} {hid : ℤ} :
    ∀ {l : List GEvent} {st st' : PState}, runEvents hr vr hid st l = .ok st' →
      (∀ p, SumInv (st.bank p)) → ∀ p, SumInv (st'.bank p) := by
  intro l
  induction l with
  | nil =>
    intro st st' h hinv
    cases h
    exact hinv
  | cons e rest ih =>
    intro st st' h hinv
    unfold runEvents at h
    split at h
    · cases h
    · rename_i st1 hstep
      exact ih h (processEvent_sumInv hstep hinv)

/-- C8: for every player, after the state machine has consumed the event
stream, if the player's check-in and check-out sequences balance (as the
interval materialization demands), the sum of time_in - time_out over the
player's closed interval pairs equals the independently accumulated
playing_time counter. -/
theorem claim_C8 (hr vr : List ℤ) (hid : ℤ) (l : List GEvent) (stF : PState)
    (hrun : runEvents hr vr hid initState l = .ok stF) (p : ℤ)
    (hlen : (stF.bank p).time_in_list.length = (stF.bank p).time_out_list.length) :
    ((pairsOf (stF.bank p)).map fun q => q.1 - q.2).sum = (stF.bank p).playing_time := by
  have hinv := runEvents_sumInv hrun sumInv_init p
  rcases hinv with ⟨hstruct, hsum⟩ | hb
  · exact hsum
  · rcases hb with ⟨-, hlt⟩ | ⟨-, hlt⟩ <;> omega

/-- Witness for C8: the second concrete game, player 1. -/
theorem claim_C8_witness :
    (runEvents homeRosterB visitorRosterB 100 initState (sortEvents (withGtr gameB))).map
      (fun st => ((pairsOf (st.bank 1)).map fun q => q.1 - q.2).sum - (st.bank 1).playing_time)
      = .ok 0 := by
  have hlen' : (runEvents homeRosterB visitorRosterB 100 initState
      (sortEvents (withGtr gameB))).map
      (fun st => decide ((st.bank 1).time_in_list.length = (st.bank 1).time_out_list.length))
      = .ok true := by rfl
  rcases hrun : runEvents homeRosterB visitorRosterB 100 initState
      (sortEvents (withGtr gameB)) with err | stF
  · rw [hrun] at hlen'
    cases hlen'
  · rw [hrun] at hlen'
    have hlen := of_decide_eq_true (Except.ok.inj hlen')
    have hs := claim_C8 homeRosterB visitorRosterB 100 (sortEvents (withGtr gameB)) stF hrun 1 hlen
    show Except.ok (((pairsOf (stF.bank 1)).map fun q => q.1 - q.2).sum -
      (stF.bank 1).playing_time) = Except.ok 0
    rw [hs, sub_self]

/-- The per-record alternating boundary list: check-in then check-out of
every closed pair, then the open check-in when present. -/
def flatRec (r : PRec) : List ℤ :=
  ((pairsOf r).flatMap fun q => [q.1, q.2]) ++
    (match r.time_in with | none => [] | some v => [v])

/-- Chain invariant of one record at lower bound b: the boundary list
extended by b is non-increasing, or the record has drifted out of
balance. -/
def ChainInv (r : PRec) (b : ℤ) : Prop :=
  ((StructClosed r ∨ StructOpen r) ∧ List.Chain' (· ≥ ·) (flatRec r ++ [b])) ∨ RecBroken r

/-- Final, bound-free form of the chain invariant. -/
def ChainFin (r : PRec) : Prop :=
  ((StructClosed r ∨ StructOpen r) ∧ List.Chain' (· ≥ ·) (flatRec r)) ∨ RecBroken r

/-- Processing-order relation: later events carry no larger recomputed
game_time_remaining. -/
def timeGE (a c : GEvent) : Prop :=
  (evTimes c).1 ≤ (evTimes a).1

instance : IsTrans GEvent timeGE :=
  ⟨fun _ _ _ h1 h2 => le_trans h2 h1⟩

theorem chain_snoc {l : List ℤ} {x y : ℤ} (h : List.Chain' (· ≥ ·) (l ++ [x]))
    (hxy : y ≤ x) : List.Chain' (· ≥ ·) (l ++ [x] ++ [y]) := by
  refine List.chain'_append.mpr ⟨h, List.chain'_singleton y, fun a ha c hc => ?_⟩
  rw [List.getLast?_concat] at ha
  simp only [Option.mem_def, List.head?_cons, Option.some.injEq] at ha hc
  subst ha
  subst hc
  exact hxy

theorem chain_snoc_mono {l : List ℤ} {b c : ℤ} (h : List.Chain' (· ≥ ·) (l ++ [b]))
    (hcb : c ≤ b) : List.Chain' (· ≥ ·) (l ++ [c]) := by
  obtain ⟨h1, _, h3⟩ := List.chain'_append.mp h
  refine List.chain'_append.mpr ⟨h1, List.chain'_singleton c, fun a ha y hy => ?_⟩
  simp only [Option.mem_def, List.head?_cons, Option.some.injEq] at hy
  subst hy
  have := h3 a ha b (by simp)
  omega

theorem chainInv_mono {r : PRec} {b c : ℤ} (h : ChainInv r b) (hcb : c ≤ b) :
    ChainInv r c := by
  rcases h with ⟨hs, hch⟩ | hb
  · exact Or.inl ⟨hs, chain_snoc_mono hch hcb⟩
  · exact Or.inr hb

theorem chainInv_fin {r : PRec} {b : ℤ} (h : ChainInv r b) : ChainFin r := by
  rcases h with ⟨hs, hch⟩ | hb
  · exact Or.inl ⟨hs, (List.chain'_append.mp hch).1⟩
  · exact Or.inr hb

theorem zip_getLast_snd : ∀ {l₁ l₂ : List ℤ}, l₁.length = l₂.length →
    ((l₁.zip l₂).getLast?).map Prod.snd = l₂.getLast? := by
  intro l₁ l₂ h
  by_cases h2 : l₂ = []
  · subst h2
    have : l₁ = [] := List.eq_nil_of_length_eq_zero (by simpa using h)
    subst this
    rfl
  · have h1 : l₁ ≠ [] := by
      intro hh
      subst hh
      exact h2 (List.eq_nil_of_length_eq_zero (by simpa using h.symm))
    have d1 := List.dropLast_append_getLast h1
    have d2 := List.dropLast_append_getLast h2
    have hdl : l₁.dropLast.length = l₂.dropLast.length := by
      have e1 := List.length_dropLast l₁
      have e2 := List.length_dropLast l₂
      omega
    conv_lhs => rw [← d1, ← d2, zip_concat_both hdl]
    conv_rhs => rw [← d2]
    rw [List.getLast?_concat, List.getLast?_concat]
    rfl

theorem flatMap_pairs_getLast : ∀ (ps : List (ℤ × ℤ)),
    (ps.flatMap fun q => [q.1, q.2]).getLast? = ps.getLast?.map Prod.snd := by
  intro ps
  induction ps with
  | nil => rfl
  | cons q ps ih =>
    rcases ps with _ | ⟨q2, ps'⟩
    · rfl
    · rw [List.flatMap_cons]
      rw [List.getLast?_append_of_ne_nil _ (by simp [List.flatMap_cons])]
      rw [ih, List.getLast?_cons_cons]

theorem flatRec_closed_getLast {r : PRec} (hs : StructClosed r) :
    (flatRec r).getLast? = r.time_out_list.getLast? := by
  unfold flatRec
  rw [hs.1]
  rw [List.append_nil, flatMap_pairs_getLast]
  exact zip_getLast_snd hs.2

/-- Guard of one implicit check-in at maxp: the record's last check-out
must not precede maxp. -/
def lastOutGuard (r : PRec) (maxp : ℤ) : Bool :=
  match r.time_out_list.getLast? with
  | none => true
  | some y => decide (maxp ≤ y)

theorem lastOutGuard_spec {r : PRec} {maxp : ℤ} (h : lastOutGuard r maxp = true) :
    ∀ y ∈ r.time_out_list.getLast?, maxp ≤ y := by
  intro y hy
  unfold lastOutGuard at h
  rw [Option.mem_def] at hy
  rw [hy] at h
  exact of_decide_eq_true h

theorem chain_snoc_guard {l : List ℤ} {x : ℤ} (h : List.Chain' (· ≥ ·) l)
    (hg : ∀ y ∈ l.getLast?, x ≤ y) : List.Chain' (· ≥ ·) (l ++ [x]) := by
  refine List.chain'_append.mpr ⟨h, List.chain'_singleton x, fun a ha c hc => ?_⟩
  simp only [Option.mem_def, List.head?_cons, Option.some.injEq] at hc
  subst hc
  exact hg a ha

theorem flatRec_open_record (r : PRec) (x : ℤ) (hs : StructClosed r) :
    flatRec { r with time_in := some x, time_in_list := r.time_in_list ++ [x] } =
      flatRec r ++ [x] := by
  unfold flatRec pairsOf
  dsimp only
  rw [zip_concat_left hs.2, hs.1]
  simp

theorem flatRec_implicitClose_record (r : PRec) (a t maxp : ℤ) (pl : List ℕ)
    (hs : StructClosed r) :
    flatRec { r with
      playing_time := a
      time_in := none
      time_in_list := r.time_in_list ++ [maxp]
      time_out_list := r.time_out_list ++ [t]
      period_list := pl } = flatRec r ++ [maxp, t] := by
  unfold flatRec pairsOf
  dsimp only
  rw [zip_concat_both hs.2, hs.1]
  simp [List.flatMap_append]

theorem flatRec_close_record (r : PRec) (a t : ℤ) (pl : List ℕ) (ho : StructOpen r) :
    flatRec { r with
      playing_time := a
      time_in := none
      time_out_list := r.time_out_list ++ [t]
      period_list := pl } = flatRec r ++ [t] := by
  obtain ⟨v, hv, hlen, hlast⟩ := ho
  have hne : r.time_in_list ≠ [] := by
    intro hnil
    rw [hnil] at hlen
    simp at hlen
  have hdl : r.time_in_list.dropLast.length = r.time_out_list.length := by
    have := List.length_dropLast r.time_in_list
    omega
  have hdecomp : r.time_in_list.dropLast ++ [v] = r.time_in_list := by
    have h1 := List.dropLast_append_getLast hne
    have h2 : r.time_in_list.getLast hne = v := by
      rw [List.getLast?_eq_getLast r.time_in_list hne, Option.some.injEq] at hlast
      exact hlast
    rw [h2] at h1
    exact h1
  unfold flatRec pairsOf
  dsimp only
  rw [hv]
  conv_lhs => rw [← hdecomp, zip_concat_both hdl]
  conv_rhs => rw [← hdecomp, zip_concat_left hdl]
  simp [List.flatMap_append]

theorem chainInv_open_now {r : PRec} {t : ℤ} (h : ChainInv r t) :
    ChainInv { r with time_in := some t, time_in_list := r.time_in_list ++ [t] } t := by
  rcases h with ⟨hs | ho, hch⟩ | hb
  · refine Or.inl ⟨Or.inr ⟨t, rfl, by simp [hs.2], by simp⟩, ?_⟩
    rw [flatRec_open_record r t hs]
    exact chain_snoc hch le_rfl
  · obtain ⟨v, hv, hlen, -⟩ := ho
    refine Or.inr (Or.inr ⟨by simp, ?_⟩)
    simp
    omega
  · rcases hb with ⟨-, hlt⟩ | ⟨-, hlt⟩ <;>
      exact Or.inr (Or.inr ⟨by simp, by simp; omega⟩)

theorem chainInv_open_backdated {r : PRec} {t maxp : ℤ} (h : ChainInv r t)
    (hguard : lastOutGuard r maxp = true) (hmt : t ≤ maxp) :
    ChainInv { r with time_in := some maxp, time_in_list := r.time_in_list ++ [maxp] } t := by
  rcases h with ⟨hs | ho, hch⟩ | hb
  · refine Or.inl ⟨Or.inr ⟨maxp, rfl, by simp [hs.2], by simp⟩, ?_⟩
    rw [flatRec_open_record r maxp hs]
    have h1 : List.Chain' (· ≥ ·) (flatRec r) := (List.chain'_append.mp hch).1
    have h2 : List.Chain' (· ≥ ·) (flatRec r ++ [maxp]) := by
      refine chain_snoc_guard h1 ?_
      rw [flatRec_closed_getLast hs]
      exact lastOutGuard_spec hguard
    exact chain_snoc_mono (chain_snoc h2 le_rfl) hmt
  · obtain ⟨v, hv, hlen, -⟩ := ho
    refine Or.inr (Or.inr ⟨by simp, ?_⟩)
    simp
    omega
  · rcases hb with ⟨-, hlt⟩ | ⟨-, hlt⟩ <;>
      exact Or.inr (Or.inr ⟨by simp, by simp; omega⟩)

theorem chainInv_implicitClose {r : PRec} {t maxp : ℤ} (per : ℕ) (h : ChainInv r t)
    (hnone : r.time_in = none) (hguard : lastOutGuard r maxp = true) (hmt : t ≤ maxp) :
    ChainInv { r with
      playing_time := r.playing_time + (maxp - t)
      time_in := none
      time_in_list := r.time_in_list ++ [maxp]
      time_out_list := r.time_out_list ++ [t]
      period_list := r.period_list ++ [per] } t := by
  rcases h with ⟨hs | ho, hch⟩ | hb
  · refine Or.inl ⟨Or.inl ⟨rfl, by simp [hs.2]⟩, ?_⟩
    rw [flatRec_implicitClose_record r _ t maxp _ hs]
    have h1 : List.Chain' (· ≥ ·) (flatRec r) := (List.chain'_append.mp hch).1
    have h2 : List.Chain' (· ≥ ·) (flatRec r ++ [maxp]) := by
      refine chain_snoc_guard h1 ?_
      rw [flatRec_closed_getLast hs]
      exact lastOutGuard_spec hguard
    have h3 := chain_snoc (chain_snoc h2 hmt) le_rfl
    simpa [List.append_assoc] using h3
  · obtain ⟨v, hv, -, -⟩ := ho
    rw [hnone] at hv
    cases hv
  · rcases hb with ⟨-, hlt⟩ | ⟨hne, -⟩
    · exact Or.inr (Or.inl ⟨rfl, by simp; omega⟩)
    · exact absurd hnone hne

theorem chainInv_close {r : PRec} {w : ℤ} (t : ℤ) (per : ℕ) (h : ChainInv r t)
    (hw : r.time_in = some w) :
    ChainInv { r with
      playing_time := r.playing_time + (w - t)
      time_in := none
      time_out_list := r.time_out_list ++ [t]
      period_list := r.period_list ++ [per] } t := by
  rcases h with ⟨hs | ho, hch⟩ | hb
  · rw [hs.1] at hw
    cases hw
  · obtain ⟨v, hv, hlen, hlast⟩ := id ho
    refine Or.inl ⟨Or.inl ⟨rfl, by simp; omega⟩, ?_⟩
    rw [flatRec_close_record r _ t _ ho]
    exact chain_snoc hch le_rfl
  · rcases hb with ⟨hn, -⟩ | ⟨-, hlt⟩
    · rw [hn] at hw
      cases hw
    · exact Or.inr (Or.inl ⟨rfl, by simp; omega⟩)

/-- Guard of one participant of a generic play: whenever the participant
would be added to a court, their last check-out must not precede the
period-start time being backdated to. -/
def addGuard (hr vr : List ℤ) (maxp : ℤ) (st : PState) : Option ℤ → Bool
  | none => true
  | some v =>
    if (v ∈ hr ∧ v ∉ st.home_on_court) ∨ (v ∈ vr ∧ v ∉ st.visitor_on_court) then
      lastOutGuard (st.bank v) maxp
    else true

/-- Guard of one event: every check-in the event records at the
period-start time must not run past the player's last check-out. -/
def eventGuard (hr vr : List ℤ) (st : PState) (e : GEvent) : Bool :=
  if e.ev.eventmsgtype = 8 then
    match e.ev.player1_id with
    | none => true
    | some v1 =>
      match (st.bank v1).time_in with
      | none => lastOutGuard (st.bank v1) (evTimes e).2
      | some _ => true
  else if e.ev.eventmsgtype = 13 then true
  else if e.ev.eventmsgtype ≤ 5 then
    addGuard hr vr (evTimes e).2 st e.ev.player1_id &&
    addGuard hr vr (evTimes e).2 (addParticipant hr vr (evTimes e).2 st e.ev.player1_id)
      e.ev.player2_id &&
    addGuard hr vr (evTimes e).2
      (addParticipant hr vr (evTimes e).2
        (addParticipant hr vr (evTimes e).2 st e.ev.player1_id) e.ev.player2_id)
      e.ev.player3_id
  else true

/-- Guard of a whole run, evaluated along the machine's own states. -/
def runGuard (hr vr : List ℤ) (hid : ℤ) (st : PState) : List GEvent → Bool
  | [] => true
  | e :: rest =>
    eventGuard hr vr st e &&
    (match processEvent hr vr hid st e with
     | .error _ => true
     | .ok st' => runGuard hr vr hid st' rest)

theorem subStep_chainInv {hr vr : List ℤ} {hid : ℤ} {st : PState} {p1 p2 p1t : Option ℤ}
    {t maxp : ℤ} {st' : PState} (h : subStep hr vr hid st p1 p2 p1t t maxp = .ok st')
    (hmt : t ≤ maxp)
    (hguard : ∀ v1, p1 = some v1 → (st.bank v1).time_in = none →
      lastOutGuard (st.bank v1) maxp = true)
    (hinv : ∀ p, ChainInv (st.bank p) t) : ∀ p, ChainInv (st'.bank p) t := by
  unfold subStep at h
  rcases p1 with _ | v1
  · cases h
  · simp only at h
    split at h
    · rcases p2 with _ | v2
      · cases h
      · simp only at h
        split at h
        · cases h
          intro p
          rcases hb1 : (st.bank v1).time_in with _ | w
          · have hr1b : ChainInv { st.bank v1 with
                playing_time := (st.bank v1).playing_time + (maxp - t)
                time_in := none
                time_in_list := (st.bank v1).time_in_list ++ [maxp]
                time_out_list := (st.bank v1).time_out_list ++ [t]
                period_list := (st.bank v1).period_list ++ [st.period] } t :=
              chainInv_implicitClose st.period (hinv v1) hb1 (hguard v1 rfl hb1) hmt
            by_cases hp2 : p = v2
            · subst hp2
              show ChainInv (if p = p then _ else _) t
              rw [if_pos rfl]
              by_cases hv21 : p = v1
              · subst hv21
                show ChainInv { (if p = p then _ else _ : PRec) with
                  time_in := some t,
                  time_in_list := (if p = p then _ else _ : PRec).time_in_list ++ [t] } t
                rw [if_pos rfl]
                exact chainInv_open_now hr1b
              · show ChainInv { (if p = v1 then _ else _ : PRec) with
                  time_in := some t,
                  time_in_list := (if p = v1 then _ else _ : PRec).time_in_list ++ [t] } t
                rw [if_neg hv21]
                exact chainInv_open_now (hinv p)
            · show ChainInv (if p = v2 then _ else if p = v1 then _ else _) t
              rw [if_neg hp2]
              by_cases hp1 : p = v1
              · subst hp1
                rw [if_pos rfl]
                exact hr1b
              · rw [if_neg hp1]
                exact hinv p
          · have hr1b : ChainInv { st.bank v1 with
                playing_time := (st.bank v1).playing_time + (w - t)
                time_in := none
                time_out_list := (st.bank v1).time_out_list ++ [t]
                period_list := (st.bank v1).period_list ++ [st.period] } t :=
              chainInv_close t st.period (hinv v1) hb1
            by_cases hp2 : p = v2
            · subst hp2
              show ChainInv (if p = p then _ else _) t
              rw [if_pos rfl]
              by_cases hv21 : p = v1
              · subst hv21
                show ChainInv { (if p = p then _ else _ : PRec) with
                  time_in := some t,
                  time_in_list := (if p = p then _ else _ : PRec).time_in_list ++ [t] } t
                rw [if_pos rfl]
                exact chainInv_open_now hr1b
              · show ChainInv { (if p = v1 then _ else _ : PRec) with
                  time_in := some t,
                  time_in_list := (if p = v1 then _ else _ : PRec).time_in_list ++ [t] } t
                rw [if_neg hv21]
                exact chainInv_open_now (hinv p)
            · show ChainInv (if p = v2 then _ else if p = v1 then _ else _) t
              rw [if_neg hp2]
              by_cases hp1 : p = v1
              · subst hp1
                rw [if_pos rfl]
                exact hr1b
              · rw [if_neg hp1]
                exact hinv p
        · cases h
    · cases h

theorem closeOne_chainInv {hr vr : List ℤ} {per : ℕ} {t : ℤ} {bank : ℤ → PRec} {pid : ℤ}
    {bank' : ℤ → PRec} (h : closeOne hr vr per t bank pid = .ok bank')
    (hinv : ∀ p, ChainInv (bank p) t) : ∀ p, ChainInv (bank' p) t := by
  simp only [closeOne] at h
  split at h
  · rcases hb : (bank pid).time_in with _ | w
    · rw [hb] at h
      cases h
    · rw [hb] at h
      simp only at h
      cases h
      intro p
      by_cases hp : p = pid
      · subst hp
        show ChainInv (if p = p then _ else _) t
        rw [if_pos rfl]
        exact chainInv_close t per (hinv p) hb
      · show ChainInv (if p = pid then _ else _) t
        rw [if_neg hp]
        exact hinv p
  · cases h

theorem closeAll_chainInv {hr vr : List ℤ} {per : ℕ} {t : ℤ} :
    ∀ {pids : List ℤ} {bank bank' : ℤ → PRec},
      closeAll hr vr per t bank pids = .ok bank' →
      (∀ p, ChainInv (bank p) t) → ∀ p, ChainInv (bank' p) t := by
  intro pids
  induction pids with
  | nil =>
    intro bank bank' h hinv
    cases h
    exact hinv
  | cons pid rest ih =>
    intro bank bank' h hinv
    unfold closeAll at h
    split at h
    · cases h
    · rename_i bank1 h1
      exact ih h (closeOne_chainInv h1 hinv)

theorem addParticipant_chainInv {hr vr : List ℤ} {maxp t : ℤ} {st : PState} {po : Option ℤ}
    (hguard : addGuard hr vr maxp st po = true) (hmt : t ≤ maxp)
    (hinv : ∀ p, ChainInv (st.bank p) t) :
    ∀ p, ChainInv ((addParticipant hr vr maxp st po).bank p) t := by
  unfold addParticipant
  rcases po with _ | v
  · exact hinv
  · simp only
    simp only [addGuard] at hguard
    split
    · rename_i hc1
      intro p
      by_cases hp : p = v
      · subst hp
        show ChainInv (if p = p then _ else _) t
        rw [if_pos rfl]
        refine chainInv_open_backdated (hinv p) ?_ hmt
        rw [if_pos (Or.inl hc1)] at hguard
        exact hguard
      · show ChainInv (if p = v then _ else _) t
        rw [if_neg hp]
        exact hinv p
    · split
      · rename_i hc1 hc2
        intro p
        by_cases hp : p = v
        · subst hp
          show ChainInv (if p = p then _ else _) t
          rw [if_pos rfl]
          refine chainInv_open_backdated (hinv p) ?_ hmt
          rw [if_pos (Or.inr hc2)] at hguard
          exact hguard
        · show ChainInv (if p = v then _ else _) t
          rw [if_neg hp]
          exact hinv p
      · exact hinv

theorem processEvent_chainInv {hr vr : List ℤ} {hid : ℤ} {st : PState} {e : GEvent}
    {st' : PState} (h : processEvent hr vr hid st e = .ok st')
    (hguard : eventGuard hr vr st e = true)
    (hmx : (evTimes e).1 ≤ (evTimes e).2)
    (hinv : ∀ p, ChainInv (st.bank p) (evTimes e).1) :
    ∀ p, ChainInv (st'.bank p) (evTimes e).1 := by
  simp only [processEvent] at h
  unfold eventGuard at hguard
  split at h
  · rename_i h8
    rw [if_pos h8] at hguard
    refine subStep_chainInv h hmx ?_ hinv
    intro v1 hp1 hnone
    rw [hp1] at hguard
    simp only at hguard
    rw [hnone] at hguard
    exact hguard
  · split at h
    · unfold periodEndStep at h
      split at h
      · cases h
      · rename_i bank' hca
        cases h
        exact closeAll_chainInv hca hinv
    · split at h
      · rename_i h8 h13 hle
        rw [if_neg h8, if_neg h13, if_pos hle] at hguard
        obtain ⟨hg12, hg3⟩ := Bool.and_eq_true_iff.mp hguard
        obtain ⟨hg1, hg2⟩ := Bool.and_eq_true_iff.mp hg12
        cases h
        exact addParticipant_chainInv hg3 hmx
          (addParticipant_chainInv hg2 hmx (addParticipant_chainInv hg1 hmx hinv))
      · cases h
        exact hinv

theorem runEvents_chainInv {hr vr : List ℤ} {hid : ℤ} :
    ∀ {l : List GEvent} {st st' : PState} {b : ℤ},
      runEvents hr vr hid st l = .ok st' →
      runGuard hr vr hid st l = true →
      (∀ e ∈ l, (evTimes e).1 ≤ (evTimes e).2) →
      (∀ e ∈ l, (evTimes e).1 ≤ b) →
      List.Chain' timeGE l →
      (∀ p, ChainInv (st.bank p) b) →
      ∀ p, ChainFin (st'.bank p) := by
  intro l
  induction l with
  | nil =>
    intro st st' b h _ _ _ _ hinv
    cases h
    exact fun p => chainInv_fin (hinv p)
  | cons e rest ih =>
    intro st st' b h hguard hmx hb hchain hinv
    unfold runEvents at h
    split at h
    · cases h
    · rename_i st1 hstep
      unfold runGuard at hguard
      obtain ⟨hge, hgrest⟩ := Bool.and_eq_true_iff.mp hguard
      rw [hstep] at hgrest
      have hinv1 : ∀ p, ChainInv (st.bank p) (evTimes e).1 :=
        fun p => chainInv_mono (hinv p) (hb e (List.mem_cons_self e rest))
      have hinv2 := processEvent_chainInv hstep hge (hmx e (List.mem_cons_self e rest)) hinv1
      have hpw := List.chain'_iff_pairwise.mp hchain
      have hhead := (List.pairwise_cons.mp hpw).1
      exact ih h hgrest (fun e' he' => hmx e' (List.mem_cons_of_mem e he'))
        (fun e' he' => hhead e' he') hchain.tail hinv2

theorem chainInv_init (b : ℤ) (p : ℤ) : ChainInv (initState.bank p) b :=
  Or.inl ⟨Or.inl ⟨rfl, rfl⟩, List.chain'_singleton b⟩

theorem sorted_timeGE (pbp : List Event) :
    List.Chain' timeGE (sortEvents (withGtr pbp)) := by
  have hsorted := List.sorted_insertionSort keyLE (withGtr pbp)
  have hperm := List.perm_insertionSort keyLE (withGtr pbp)
  have hmem : ∀ e ∈ sortEvents (withGtr pbp), e.gtr = (evTimes e).1 := by
    intro e he
    have hw : e ∈ withGtr pbp := hperm.mem_iff.mp he
    unfold withGtr at hw
    obtain ⟨ev, -, rfl⟩ := List.mem_map.mp hw
    rfl
  have hpw : List.Pairwise timeGE (sortEvents (withGtr pbp)) := by
    refine List.Pairwise.imp_of_mem ?_ hsorted
    intro a b ha hb hk
    unfold timeGE
    rw [← hmem a ha, ← hmem b hb]
    unfold keyLE at hk
    omega
  exact List.chain'_iff_pairwise.mpr hpw

theorem mem_dedupFirstGo {x : ℤ} : ∀ {l seen : List ℤ},
    x ∈ dedupFirstGo seen l ↔ x ∈ l ∧ x ∉ seen := by
  intro l
  induction l with
  | nil => simp [dedupFirstGo]
  | cons y ys ih =>
    intro seen
    unfold dedupFirstGo
    by_cases hy : y ∈ seen
    · rw [if_pos hy, ih]
      constructor
      · rintro ⟨h1, h2⟩
        exact ⟨List.mem_cons_of_mem y h1, h2⟩
      · rintro ⟨h1, h2⟩
        rcases List.mem_cons.mp h1 with rfl | h1
        · exact absurd hy h2
        · exact ⟨h1, h2⟩
    · rw [if_neg hy]
      constructor
      · intro hmem
        rcases List.mem_cons.mp hmem with rfl | hmem
        · exact ⟨List.mem_cons_self x ys, hy⟩
        · obtain ⟨h1, h2⟩ := ih.mp hmem
          refine ⟨List.mem_cons_of_mem y h1, fun hc => h2 (List.mem_cons_of_mem y hc)⟩
      · rintro ⟨h1, h2⟩
        rcases List.mem_cons.mp h1 with rfl | h1
        · exact List.mem_cons_self x _
        · by_cases hxy : x = y
          · subst hxy
            exact List.mem_cons_self x _
          · exact List.mem_cons_of_mem y (ih.mpr ⟨h1, by simp [hxy, h2]⟩)

theorem dedupFirstGo_nodup : ∀ (l seen : List ℤ), (dedupFirstGo seen l).Nodup := by
  intro l
  induction l with
  | nil => intro seen; simp [dedupFirstGo]
  | cons y ys ih =>
    intro seen
    unfold dedupFirstGo
    by_cases hy : y ∈ seen
    · rw [if_pos hy]
      exact ih seen
    · rw [if_neg hy]
      refine List.nodup_cons.mpr ⟨fun hc => ?_, ih (y :: seen)⟩
      exact (mem_dedupFirstGo.mp hc).2 (List.mem_cons_self y seen)

theorem mem_dedupFirst {x : ℤ} {l : List ℤ} : x ∈ dedupFirst l ↔ x ∈ l := by
  unfold dedupFirst
  rw [mem_dedupFirstGo]
  simp

theorem dedupFirst_nodup (l : List ℤ) : (dedupFirst l).Nodup :=
  dedupFirstGo_nodup l []

theorem buildSubDf_ok_lengths {hr : List ℤ} {hid vid : ℤ} {bank : ℤ → PRec} :
    ∀ {ps : List ℤ} {rows : List SubRow},
      buildSubDf hr hid vid bank ps = .ok rows →
      ∀ p ∈ ps, (bank p).time_in_list.length = (bank p).time_out_list.length := by
  intro ps
  induction ps with
  | nil =>
    intro rows h p hp
    cases hp
  | cons q ps' ih =>
    intro rows h p hp
    unfold buildSubDf at h
    split at h
    · cases h
    · rename_i rowsq hq
      split at h
      · cases h
      · rename_i rest hrest
        cases h
        rcases List.mem_cons.mp hp with rfl | hp'
        · simp only [playerRows] at hq
          split at hq
          · assumption
          · cases hq
        · exact ih hrest p hp'

theorem filter_block_rows (p pid team : ℤ) : ∀ (qs : List (ℤ × ℤ)),
    ((qs.map fun q => (⟨pid, team, q.1, q.2⟩ : SubRow)).filter
      fun r => decide (r.player_id = p)) =
    if pid = p then qs.map fun q => (⟨pid, team, q.1, q.2⟩ : SubRow) else [] := by
  intro qs
  induction qs with
  | nil => simp
  | cons q qs' ih =>
    simp only [List.map_cons, List.filter_cons]
    by_cases hpq : pid = p
    · subst hpq
      simp [ih]
    · simp [hpq, ih]

theorem buildSubDf_filter {hr : List ℤ} {hid vid : ℤ} {bank : ℤ → PRec} (p : ℤ) :
    ∀ {ps : List ℤ} {rows : List SubRow},
      buildSubDf hr hid vid bank ps = .ok rows → ps.Nodup →
      rows.filter (fun r => decide (r.player_id = p)) =
        if p ∈ ps then
          (pairsOf (bank p)).map fun q =>
            (⟨p, if p ∈ hr then hid else vid, q.1, q.2⟩ : SubRow)
        else [] := by
  intro ps
  induction ps with
  | nil =>
    intro rows h hnd
    cases h
    simp
  | cons q ps' ih =>
    intro rows h hnd
    unfold buildSubDf at h
    split at h
    · cases h
    · rename_i rowsq hq
      split at h
      · cases h
      · rename_i rest hrest
        cases h
        obtain ⟨hqnotin, hnd'⟩ := List.nodup_cons.mp hnd
        simp only [playerRows] at hq
        split at hq
        · cases hq
          rw [List.filter_append, filter_block_rows p q _ _, ih hrest hnd']
          by_cases hpq : q = p
          · subst hpq
            rw [if_pos rfl, if_neg hqnotin, if_pos (List.mem_cons_self q ps')]
            simp [pairsOf]
          · rw [if_neg hpq]
            by_cases hp' : p ∈ ps'
            · rw [if_pos hp', if_pos (List.mem_cons_of_mem q hp')]
              simp
            · rw [if_neg hp', if_neg (by
                intro hc
                rcases List.mem_cons.mp hc with rfl | hc
                · exact hpq rfl
                · exact hp' hc)]
              simp
        · cases hq

theorem flat_chain_elementwise : ∀ {ps : List (ℤ × ℤ)},
    List.Chain' (· ≥ ·) (ps.flatMap fun q => [q.1, q.2]) →
    (∀ q ∈ ps, q.2 ≤ q.1) ∧ List.Chain' (fun a c => c.1 ≤ a.2) ps := by
  intro ps
  induction ps with
  | nil => intro _; exact ⟨fun q hq => absurd hq (List.not_mem_nil q), List.chain'_nil⟩
  | cons q ps' ih =>
    intro h
    rw [List.flatMap_cons] at h
    rcases ps' with _ | ⟨q2, ps''⟩
    · simp only [List.flatMap_nil, List.append_nil] at h
      have h12 := (List.chain'_cons.mp h).1
      exact ⟨fun x hx => by rcases List.mem_cons.mp hx with rfl | hx
        <;> simp_all, List.chain'_singleton q⟩
    · rw [List.flatMap_cons] at h
      have h1 : q.1 ≥ q.2 := (List.chain'_cons.mp h).1
      have h2 := (List.chain'_cons.mp h).2
      have h3 : q.2 ≥ q2.1 := (List.chain'_cons.mp h2).1
      have h4 := (List.chain'_cons.mp h2).2
      have hrest : List.Chain' (· ≥ ·) ((q2 :: ps'').flatMap fun q => [q.1, q.2]) := by
        rw [List.flatMap_cons]
        exact h4
      obtain ⟨hel, hch⟩ := ih hrest
      refine ⟨fun x hx => ?_, ?_⟩
      · rcases List.mem_cons.mp hx with rfl | hx
        · exact h1
        · exact hel x hx
      · exact List.chain'_cons.mpr ⟨h3, hch⟩

theorem pairs_rel_all : ∀ (ps' : List (ℤ × ℤ)) (a : ℤ × ℤ),
    (∀ q ∈ a :: ps', q.2 ≤ q.1) →
    List.Chain' (fun x c => c.1 ≤ x.2) (a :: ps') →
    ∀ c ∈ ps', c.1 ≤ a.2 := by
  intro ps'
  induction ps' with
  | nil => intro a _ _ c hc; cases hc
  | cons b ps'' ih =>
    intro a hel hch c hc
    have hab : b.1 ≤ a.2 := (List.chain'_cons.mp hch).1
    rcases List.mem_cons.mp hc with rfl | hc
    · exact hab
    · have hb : c.1 ≤ b.2 :=
        ih b (fun q hq => hel q (List.mem_cons_of_mem a hq)) (List.chain'_cons.mp hch).2 c hc
      have hbb : b.2 ≤ b.1 := hel b (by simp)
      omega

theorem pairs_chain_pairwise : ∀ {ps : List (ℤ × ℤ)},
    (∀ q ∈ ps, q.2 ≤ q.1) →
    List.Chain' (fun a c => c.1 ≤ a.2) ps →
    List.Pairwise (fun a c => c.1 ≤ a.2) ps := by
  intro ps
  induction ps with
  | nil => intro _ _; exact List.Pairwise.nil
  | cons a ps' ih =>
    intro hel hch
    refine List.pairwise_cons.mpr ⟨pairs_rel_all ps' a hel hch, ?_⟩
    exact ih (fun q hq => hel q (List.mem_cons_of_mem a hq)) (List.Chain'.tail hch)

theorem chain'_imp_mem {α : Type} {R S : α → α → Prop} : ∀ {l : List α},
    (∀ a ∈ l, ∀ b ∈ l, R a b → S a b) → List.Chain' R l → List.Chain' S l := by
  intro l
  induction l with
  | nil => intro _ _; exact List.chain'_nil
  | cons a l' ih =>
    intro h hch
    rcases l' with _ | ⟨b, l''⟩
    · exact List.chain'_singleton a
    · refine List.chain'_cons.mpr ⟨h a (by simp) b (by simp) (List.chain'_cons.mp hch).1, ?_⟩
      exact ih (fun x hx y hy => h x (List.mem_cons_of_mem _ hx) y (List.mem_cons_of_mem _ hy))
        (List.chain'_cons.mp hch).2

/-- C7 (amended): for every player, in any run of process_pbp_data that
completes, in which every event's clock fits inside its period, and in
which every check-in backdated to a period start lands no later than the
player's previous check-out (the runGuard condition, violated exactly by
the implicit re-entry misfire of the counterexample), the player's rows of
the interval table have time_in at least time_out, appear with
non-increasing time_in, and are pairwise non-overlapping (no two spans
share more than a boundary point). -/
theorem claim_C7_amended (pbp : List Event) (hr vr : List ℤ) (hid vid : ℤ)
    (subDf : List SubRow) (sorted : List GEvent)
    (hok : process_pbp_data pbp hr vr hid vid = .ok (subDf, sorted))
    (hmx : ∀ e ∈ withGtr pbp, (evTimes e).1 ≤ (evTimes e).2)
    (hguard : runGuard hr vr hid initState (sortEvents (withGtr pbp)) = true)
    (p : ℤ) :
    (∀ r ∈ subDf.filter (fun r => decide (r.player_id = p)), r.time_out ≤ r.time_in) ∧
    List.Chain' (fun r1 r2 => r2.time_in ≤ r1.time_in)
      (subDf.filter (fun r => decide (r.player_id = p))) ∧
    List.Pairwise (fun r1 r2 => ¬ (max r1.time_out r2.time_out < min r1.time_in r2.time_in))
      (subDf.filter (fun r => decide (r.player_id = p))) := by
  simp only [process_pbp_data] at hok
  split at hok
  · cases hok
  · rename_i stF hrun
    split at hok
    · cases hok
    · rename_i rows hbuild
      cases hok
      have hchain := sorted_timeGE pbp
      have hmx' : ∀ e ∈ sortEvents (withGtr pbp), (evTimes e).1 ≤ (evTimes e).2 :=
        fun e he => hmx e ((List.perm_insertionSort keyLE (withGtr pbp)).mem_iff.mp he)
      have hbound : ∃ b, ∀ e ∈ sortEvents (withGtr pbp), (evTimes e).1 ≤ b := by
        rcases hL : sortEvents (withGtr pbp) with _ | ⟨e0, rest⟩
        · exact ⟨0, fun e he => absurd he (List.not_mem_nil e)⟩
        · refine ⟨(evTimes e0).1, fun e he => ?_⟩
          rcases List.mem_cons.mp he with rfl | he'
          · exact le_refl _
          · have hpw := List.chain'_iff_pairwise.mp (hL ▸ hchain)
            exact (List.pairwise_cons.mp hpw).1 e he'
      obtain ⟨b, hb⟩ := hbound
      have hfin := runEvents_chainInv hrun hguard hmx' hb hchain (chainInv_init b)
      have hfilter := buildSubDf_filter p hbuild (dedupFirst_nodup (hr ++ vr))
      by_cases hp : p ∈ dedupFirst (hr ++ vr)
      · rw [if_pos hp] at hfilter
        have hlen := buildSubDf_ok_lengths hbuild p hp
        rcases hfin p with ⟨hs, hch⟩ | hbrk
        · have hfm : List.Chain' (· ≥ ·) ((pairsOf (stF.bank p)).flatMap fun q => [q.1, q.2]) := by
            unfold flatRec at hch
            exact (List.chain'_append.mp hch).1
          obtain ⟨hel, hpch⟩ := flat_chain_elementwise hfm
          have hppw := pairs_chain_pairwise hel hpch
          rw [hfilter]
          refine ⟨?_, ?_, ?_⟩
          · intro r hrr
            obtain ⟨q, hq, rfl⟩ := List.mem_map.mp hrr
            exact hel q hq
          · rw [List.chain'_map]
            refine chain'_imp_mem ?_ hpch
            intro a ha c hc hac
            have := hel a ha
            simp only
            omega
          · rw [List.pairwise_map]
            refine List.Pairwise.imp_of_mem ?_ hppw
            intro a c ha hc hac
            have h1 := hel a ha
            have h2 := hel c hc
            simp only
            omega
        · rcases hbrk with ⟨-, hlt⟩ | ⟨-, hlt⟩ <;> omega
      · rw [if_neg hp] at hfilter
        rw [hfilter]
        exact ⟨fun r hrr => absurd hrr (List.not_mem_nil r), List.chain'_nil, List.Pairwise.nil⟩

/-- Counterexample for C7 as stated: in the first concrete game player 1
receives the interval rows (2400, 1805) and (2400, 1800), whose spans
overlap on the whole stretch from 1805 to 2400 and whose time_in values
do not decrease; the state machine run itself completes. -/
theorem claim_C7_counterexample :
    (process_pbp_data gameA homeRosterA visitorRosterA 100 200).map (fun pr =>
      pr.1.filter fun r => decide (r.player_id = 1)) =
      .ok [⟨1, 100, 2400, 1805⟩, ⟨1, 100, 2400, 1800⟩] ∧
    max (1805 : ℤ) 1800 < min (2400 : ℤ) 2400 :=
  ⟨rfl, by decide⟩

/-- Witness for C7 (amended): the second concrete game satisfies the
clock and guard conditions and player 1's interval rows come out pairwise
non-overlapping. -/
theorem claim_C7_amended_witness :
    (process_pbp_data gameB homeRosterB visitorRosterB 100 200).map (fun pr =>
      decide (List.Pairwise
        (fun r1 r2 => ¬ (max r1.time_out r2.time_out < min r1.time_in r2.time_in))
        (pr.1.filter fun r => decide (r.player_id = 1)))) = .ok true := by
  rcases hP : process_pbp_data gameB homeRosterB visitorRosterB 100 200 with e | pair
  · have hok : (process_pbp_data gameB homeRosterB visitorRosterB 100 200).isOk = true := by rfl
    rw [hP] at hok
    cases hok
  · obtain ⟨s1, s2⟩ := pair
    have hprops := claim_C7_amended gameB homeRosterB visitorRosterB 100 200 s1 s2 hP
      (by decide) (by rfl) 1
    show Except.ok (decide _) = Except.ok true
    rw [decide_eq_true hprops.2.2]
